import Mathlib

/-!
Shallow embedding of the larg4 `ParticleListActionService`
(`src/larg4/pluginActions/ParticleListAction.cc`): the particle provenance and
trajectory retention engine.  Geant4 callbacks are modelled as pure state
transformers over an explicit `State`; `double` quantities are modelled as `ℚ`
(only order and equality comparisons on them occur in the code); the fatal
`art::Exception` / `cet::exception` throws are modelled with `Except`.

The external `sim::ParticleList` container (an ordered map from track id to an
owning particle pointer, where `Archive` nulls the mapped pointer but keeps the
key and the mother id, while `erase` removes the entry) is modelled as an
association list of `PLEntry`; external collaborators that are out of scope of
the repository are modelled from the spec and marked as such in their doc
comments.
-/

namespace Larg4

/-- Character-list test: `p` is a leading segment of `s` (helper for the
`std::string::find(p) == 0` and substring tests in the source). -/
def charsLead : List Char → List Char → Bool
  | [], _ => true
  | _ :: _, [] => false
  | a :: as, b :: bs => a = b && charsLead as bs

/-- `p.find(q) == 0` of C++: `q` starts the string `p`. -/
def strStartsWith (s p : String) : Bool :=
  charsLead p.data s.data

/-- Character-list substring containment. -/
def charsContain (p : List Char) : List Char → Bool
  | [] => charsLead p []
  | b :: bs => charsLead p (b :: bs) || charsContain p bs

/-- `s.find(p) != std::string::npos` of C++: `p` occurs somewhere in `s`. -/
def strContainsSub (s p : String) : Bool :=
  charsContain p.data s.data

/-- Association-list lookup (first entry with the given key), the model of
`std::map::find`. -/
def alFind? {κ α : Type} [DecidableEq κ] : List (κ × α) → κ → Option α
  | [], _ => none
  | (k, v) :: rest, key => if k = key then some v else alFind? rest key

/-- Lookup with a default, the model of reading `std::map::operator[]`. -/
def alFindD {κ α : Type} [DecidableEq κ] (m : List (κ × α)) (key : κ) (d : α) : α :=
  (alFind? m key).getD d

/-- Association-list insert-or-assign, the model of `std::map::operator[] =`
and `insert_or_assign`. -/
def alInsert {κ α : Type} [DecidableEq κ] : List (κ × α) → κ → α → List (κ × α)
  | [], key, v => [(key, v)]
  | (k, w) :: rest, key, v =>
    if k = key then (k, v) :: rest else (k, w) :: alInsert rest key v

/-- Association-list erase, the model of `std::map::erase(key)`. -/
def alErase {κ α : Type} [DecidableEq κ] : List (κ × α) → κ → List (κ × α)
  | [], _ => []
  | (k, w) :: rest, key => if k = key then rest else (k, w) :: alErase rest key

theorem alFind?_alInsert_self {κ α : Type} [DecidableEq κ]
    (m : List (κ × α)) (k : κ) (v : α) : alFind? (alInsert m k v) k = some v := by
  induction m with
  | nil => simp [alInsert, alFind?]
  | cons kv rest ih =>
    obtain ⟨k', w⟩ := kv
    by_cases h : k' = k
    · simp [alInsert, h, alFind?]
    · simp [alInsert, h, alFind?, ih]

theorem alFind?_alInsert_ne {κ α : Type} [DecidableEq κ]
    (m : List (κ × α)) (k k' : κ) (v : α) (h : k ≠ k') :
    alFind? (alInsert m k v) k' = alFind? m k' := by
  induction m with
  | nil => simp [alInsert, alFind?, h]
  | cons kv rest ih =>
    obtain ⟨k₀, w⟩ := kv
    by_cases h0 : k₀ = k
    · subst h0
      simp [alInsert, alFind?, h]
    · simp only [alInsert, if_neg h0]
      by_cases h1 : k₀ = k'
      · simp [alFind?, h1]
      · simp [alFind?, h1, ih]

/-- `sim::NoParticleId` from `lardataobj/Simulation/sim.h` (the smallest
`int`), the "no particle" sentinel. -/
def noParticleId : Int := -2147483648

/-- The recursive walk inside `ParticleListActionService::GetParentage`
(lines 219-234): repeatedly look the current id up in `fParentIDMap`; when the
lookup fails, return the last value found (`sim::NoParticleId` when even the
first lookup fails).  The C++ `while` loop is modelled with explicit fuel; the
fuel `length + 1` used by `GetParentage` is shown sufficient for maps whose
entries decrease (the causal situation) in the theorems below. -/
def getParentageFuel (m : List (Int × Int)) : Nat → Int → Int → Int
  | 0, _, parentid => parentid
  | Nat.succ n, cur, parentid =>
    match alFind? m cur with
    | none => parentid
    | some p => getParentageFuel m n p p

/-- `ParticleListActionService::GetParentage` (lines 219-234). -/
def GetParentage (m : List (Int × Int)) (trackid : Int) : Int :=
  getParentageFuel m (m.length + 1) trackid noParticleId

/-- Every entry of the parent-substitution map sends a track id to a strictly
smaller id.  This is the causal-order situation: Geant4 assigns a secondary a
track id strictly larger than its parent's, and the engine only ever inserts
`fParentIDMap[trackID] = parentID` for the track currently being created. -/
def DecreasingMap (m : List (Int × Int)) : Prop :=
  ∀ kv ∈ m, kv.2 < kv.1

/-- Number of entries of `m` whose key is at most `c`: the termination measure
of the ancestor walk on a decreasing map. -/
def countKeysLE (m : List (Int × Int)) (c : Int) : Nat :=
  (m.filter (fun kv => kv.1 ≤ c)).length

theorem countKeysLE_le_length (m : List (Int × Int)) (c : Int) :
    countKeysLE m c ≤ m.length :=
  List.length_filter_le _ m

theorem countKeysLE_cons (kv : Int × Int) (rest : List (Int × Int)) (c : Int) :
    countKeysLE (kv :: rest) c
      = (if kv.1 ≤ c then 1 else 0) + countKeysLE rest c := by
  by_cases hk : kv.1 ≤ c
  · simp [countKeysLE, List.filter_cons, hk, Nat.add_comm]
  · simp [countKeysLE, List.filter_cons, hk]

theorem countKeysLE_mono (m : List (Int × Int)) {a b : Int} (h : a ≤ b) :
    countKeysLE m a ≤ countKeysLE m b := by
  induction m with
  | nil => simp [countKeysLE]
  | cons kv rest ih =>
    rw [countKeysLE_cons, countKeysLE_cons]
    by_cases hk : kv.1 ≤ a
    · have hk' : kv.1 ≤ b := le_trans hk h
      simp only [hk, hk', if_true]
      omega
    · by_cases hk' : kv.1 ≤ b <;> simp only [hk, hk', if_true, if_false] <;> omega

theorem countKeysLE_strict (m : List (Int × Int)) {c p : Int}
    (hmem : (c, p) ∈ m) (hlt : p < c) :
    countKeysLE m p < countKeysLE m c := by
  induction m with
  | nil => simp at hmem
  | cons kv rest ih =>
    rw [countKeysLE_cons, countKeysLE_cons]
    rcases List.mem_cons.mp hmem with hhead | htail
    · subst hhead
      have h1 : ¬ ((c, p).1 ≤ p) := not_le.mpr hlt
      have h2 : ((c, p).1 : Int) ≤ c := le_refl c
      have := countKeysLE_mono rest (le_of_lt hlt)
      simp only [h1, h2, if_true, if_false]
      omega
    · have hrec := ih htail
      by_cases hk : kv.1 ≤ p
      · have hk' : kv.1 ≤ c := le_trans hk (le_of_lt hlt)
        simp only [hk, hk', if_true]
        omega
      · by_cases hk' : kv.1 ≤ c <;> simp only [hk, hk', if_true, if_false] <;> omega

theorem alFind?_mem {m : List (Int × Int)} {k v : Int}
    (h : alFind? m k = some v) : (k, v) ∈ m := by
  induction m with
  | nil => simp [alFind?] at h
  | cons kv rest ih =>
    obtain ⟨k₀, w⟩ := kv
    by_cases hk : k₀ = k
    · subst hk
      simp only [alFind?, if_true] at h
      cases h
      exact List.mem_cons_self _ _
    · simp only [alFind?, if_neg hk] at h
      exact List.mem_cons_of_mem _ (ih h)

/-- On a decreasing parent-substitution map, any two fuels above the
`countKeysLE` measure give the ancestor walk the same result: the C++ `while`
loop stops after at most that many lookups. -/
theorem getParentageFuel_stable {m : List (Int × Int)} (hdec : DecreasingMap m) :
    ∀ f : Nat, ∀ cur acc : Int, ∀ g : Nat,
      countKeysLE m cur < f → countKeysLE m cur < g →
      getParentageFuel m f cur acc = getParentageFuel m g cur acc := by
  intro f
  induction f with
  | zero => intro cur acc g hf _; omega
  | succ f ih =>
    intro cur acc g hf hg
    match g, hg with
    | Nat.succ g, hg =>
      show getParentageFuel m (f + 1) cur acc = getParentageFuel m (g + 1) cur acc
      simp only [getParentageFuel]
      cases hfind : alFind? m cur with
      | none => rfl
      | some p =>
        have hmem : (cur, p) ∈ m := alFind?_mem hfind
        have hlt : p < cur := hdec _ hmem
        have hcnt : countKeysLE m p < countKeysLE m cur :=
          countKeysLE_strict m hmem hlt
        exact ih p p g (by omega) (by omega)

/-- Static configuration read from the FHiCL parameter set in the constructor
(lines 66-82). -/
structure Config where
  fenergyCut : ℚ
  fstoreTrajectories : Bool
  fkeepGenTrajectories : List String
  fKeepEMShowerDaughters : Bool
  fNotStoredPhysics : List String
  fkeepOnlyPrimaryFullTraj : Bool
  fSparsifyTrajectories : Bool
  fSparsifyMargin : ℚ
  fKeepTransportation : Bool
  fKeepSecondToLast : Bool
  fStoreDroppedMCParticles : Bool
deriving DecidableEq, Repr

/-- The built-in default `NotStoredPhysics` list (constructor lines 92-101). -/
def defaultNotStoredPhysics : List String :=
  ["conv", "LowEnConversion", "Pair", "compt", "Compt", "Brem", "phot",
   "Photo", "Ion", "annihil"]

/-- Constructor logic (lines 87-102): when shower daughters are not kept and no
custom `NotStoredPhysics` list was provided, install the default list. -/
def resolveConfig (c : Config) : Config :=
  if !c.fKeepEMShowerDaughters && c.fNotStoredPhysics.isEmpty then
    { c with fNotStoredPhysics := defaultNotStoredPhysics }
  else c

/-- A four-vector as built from the Geant4 step points (`TLorentzVector`). -/
structure LVec where
  x : ℚ
  y : ℚ
  z : ℚ
  t : ℚ
deriving DecidableEq, Repr

/-- One trajectory sample of a particle.  Modelled from the spec: the external
trajectory container (`simb::MCParticle::AddTrajectoryPoint`) stores every
sample passed to it; the transportation-retention flag only controls whether
the sample's process label is additionally tagged in the auxiliary
process map, which is recorded here in `processTagged`. -/
structure TrajPoint where
  fourPos : LVec
  fourMom : LVec
  process : String
  processTagged : Bool
deriving DecidableEq, Repr

/-- A particle record (`simb::MCParticle`): identity fields from the 5-argument
constructor used at line 414-415, plus the fields mutated later (polarization,
weight, end process, trajectory, daughter list).  The status code of a particle
built through this constructor is 1. -/
structure Particle where
  trackId : Int
  pdgCode : Int
  process : String
  mother : Int
  mass : ℚ
  status : Int := 1
  polarization : ℚ × ℚ × ℚ := (0, 0, 0)
  weight : ℚ := 1
  endProcess : Option String := none
  trajectory : List TrajPoint := []
  daughters : List Int := []
deriving DecidableEq, Repr

/-- Modelled from the spec: `simb::MCParticle::AddTrajectoryPoint(pos, mom,
process, keepTransportation)` appends the sample unconditionally; the process
label is tagged in the auxiliary process map unless the process is
"Transportation" and transportation retention is off. -/
def addTrajectoryPoint (p : Particle) (pos mom : LVec) (process : String)
    (keepTransportation : Bool) : Particle :=
  { p with trajectory := p.trajectory ++
      [{ fourPos := pos, fourMom := mom, process := process,
         processTagged := keepTransportation || !(process == "Transportation") }] }

/-- One entry of a `sim::ParticleList`.  Modelled from the spec: the Genealogy
Store maps a track id to an owning particle pointer and remembers the mother id
even for archived entries (`GetMotherOf` works after `Archive`); `Archive`
nulls the mapped pointer (modelled by `particle := none`) while `erase` removes
the entry altogether — the distinction documented at lines 461-469. -/
structure PLEntry where
  mother : Int
  particle : Option Particle
deriving DecidableEq, Repr

/-- The active-particle slot.  Modelled from the spec (struct `ParticleInfo` of
the service header, which is not under `src/`): the current particle, its
MCTruth generated-particle index (`simb::NoGeneratedParticleIndex` is `none`;
`isPrimary()` tests exactly this), and the keep-full-trajectory flag fixed at
creation.  The `inMain`/`inDroppedAdd` flags record into which collection the
particle was inserted at creation; because C++ stores an owning pointer that is
mutated in place through the active slot during stepping, the functional model
keeps the record only here until the end of tracking and commits it to the
flagged collections in `postUserTrackingAction` (observationally equivalent:
the callbacks for one track run strictly between its creation and its end, and
nothing reads the entry in that window). -/
structure CurrentInfo where
  particle : Particle
  truthIndex : Option Nat
  keepFullTrajectory : Bool := false
  inMain : Bool := false
  inDroppedAdd : Bool := false
deriving DecidableEq, Repr

/-- The mutable state of `ParticleListActionService`. -/
structure State where
  fCurrentParticle : Option CurrentInfo
  fParticleList : List (Int × PLEntry)
  fdroppedParticleList : Option (List (Int × PLEntry))
  fParentIDMap : List (Int × Int)
  fTargetIDMap : List (Int × Int)
  fMCTIndexMap : List (Int × Nat)
  fMCTPrimProcessKeepMap : List (Int × Bool)
  fCurrentTrackID : Int
  fTrackIDOffset : Int
  fPrimaryTruthMap : List (Int × Nat)
  fMCTIndexToGeneratorMap : List (Nat × (String × Bool))
  fNotStoredCounterUMap : List (String × Nat)
  fdroppedTracksMap : List (Int × List Int)
  partCol : List Particle
  droppedCol : List (Int × List Int)
  droppedPartCol : List Particle
deriving DecidableEq, Repr

/-- The state at construction (constructor lines 66-131): everything empty, the
dropped list allocated only when `fStoreDroppedMCParticles` is set, and the
per-process rejection counters initialised to zero when shower daughters are
not kept (line 109). -/
def initialState (cfg : Config) : State :=
  { fCurrentParticle := none
    fParticleList := []
    fdroppedParticleList := if cfg.fStoreDroppedMCParticles then some [] else none
    fParentIDMap := []
    fTargetIDMap := []
    fMCTIndexMap := []
    fMCTPrimProcessKeepMap := []
    fCurrentTrackID := noParticleId
    fTrackIDOffset := 0
    fPrimaryTruthMap := []
    fMCTIndexToGeneratorMap := []
    fNotStoredCounterUMap :=
      if !cfg.fKeepEMShowerDaughters then cfg.fNotStoredPhysics.map (fun p => (p, 0))
      else []
    fdroppedTracksMap := []
    partCol := []
    droppedCol := []
    droppedPartCol := [] }

/-- CLHEP unit constants (`SystemOfUnits.h`: mm = 1, ns = 1, MeV = 1). -/
def cmUnit : ℚ := 10

/-- CLHEP nanosecond. -/
def nsUnit : ℚ := 1

/-- CLHEP GeV. -/
def gevUnit : ℚ := 1000

/-- The generator keep-map built at event start (lines 164-198): for the
MCTruth handle at index `mcti` with generator label `label`, trajectory points
are storable iff `storeTrajectories` is set and either no custom
`keepGenTrajectories` list was given or the label appears in it. -/
def buildGenMap (cfg : Config) (labels : List String) : List (Nat × (String × Bool)) :=
  labels.enum.map (fun il =>
    (il.1, (il.2,
      cfg.fstoreTrajectories &&
        (cfg.fkeepGenTrajectories.isEmpty || cfg.fkeepGenTrajectories.contains il.2))))

/-- `ParticleListActionService::beginOfEventAction` (lines 135-212): clear all
per-event maps and the active slot, reset `fCurrentTrackID` to the sentinel and
`fTrackIDOffset` to 0 (line 145), clear the dropped list when it exists, and
build the generator keep-map from the MCTruth handles' generator labels. -/
def beginOfEventAction (cfg : Config) (st : State) (labels : List String) : State :=
  { fCurrentParticle := none
    fParticleList := []
    fdroppedParticleList := st.fdroppedParticleList.map (fun _ => [])
    fParentIDMap := []
    fTargetIDMap := []
    fMCTIndexMap := []
    fMCTPrimProcessKeepMap := []
    fCurrentTrackID := noParticleId
    fTrackIDOffset := 0
    fPrimaryTruthMap := []
    fMCTIndexToGeneratorMap := buildGenMap cfg labels
    fNotStoredCounterUMap := []
    fdroppedTracksMap := []
    partCol := st.partCol
    droppedCol := st.droppedCol
    droppedPartCol := st.droppedPartCol }

/-- The `g4b::PrimaryParticleInformation` attached to a primary particle:
its generated-particle index, its MCTruth index, and the process label of the
originating MCTruth particle. -/
structure PrimaryInfo where
  mcParticleIndex : Nat
  mctIndex : Nat
  process : String
deriving DecidableEq, Repr

/-- The data `preUserTrackingAction` reads from the `G4Track`:
`primary = none` models a track with no `G4PrimaryParticle`;
`primary = some none` models a `G4PrimaryParticle` whose user information is
not a `g4b::PrimaryParticleInformation` (the dynamic cast fails). -/
structure TrackInput where
  trackIdG4 : Int
  parentIdG4 : Int
  pdgCode : Int
  creatorProcess : String
  primary : Option (Option PrimaryInfo)
  kineticEnergy : ℚ
  dynamicMass : ℚ
  polarization : ℚ × ℚ × ℚ
  properTime : ℚ
deriving DecidableEq, Repr

/-- The primary-process-label normalisation of lines 286-303: label exactly
"primary" keeps the label with the from-primary flag set; a label merely
starting with "primary" is kept with the flag cleared; any other label is
overridden to "primary" with the flag set. -/
def normalizePrimaryProcess (mctPrimaryProcess : String) : String × Bool :=
  if mctPrimaryProcess == "primary" then ("primary", true)
  else if strStartsWith mctPrimaryProcess "primary" then (mctPrimaryProcess, false)
  else ("primary", true)

/-- The process-exclusion test of lines 322-334: when shower daughters are not
kept, the first configured `NotStoredPhysics` process occurring as a substring
of the creator process name (the loop breaks on the first match). -/
def filterMatch (cfg : Config) (process_name : String) : Option String :=
  if cfg.fKeepEMShowerDaughters then none
  else cfg.fNotStoredPhysics.find? (fun p => strContainsSub process_name p)

/-- The rejection-counter update of lines 328-331. -/
def applyFilterCounter (cfg : Config) (st : State) (process_name : String) : State :=
  match filterMatch cfg process_name with
  | some p =>
    { st with fNotStoredCounterUMap :=
        alInsert st.fNotStoredCounterUMap p (alFindD st.fNotStoredCounterUMap p 0 + 1) }
  | none => st

/-- Insert a track id into the `std::set` held by `fdroppedTracksMap[key]`. -/
def droppedInsert (m : List (Int × List Int)) (key trackID : Int) :
    List (Int × List Int) :=
  let s := alFindD m key []
  if s.contains trackID then m else alInsert m key (s ++ [trackID])

/-- Lines 335-354, the `notstore` block: register the track in the
parent-substitution map, set the current track id to the negated ancestor-walk
result, fall back to the sentinel when that id is not a known particle, record
the target id, and insert the track under its walked ancestor in the
dropped-track ancestry map. -/
def notStoreUpdate (st : State) (trackID parentID : Int) : State :=
  let pm := alInsert st.fParentIDMap trackID parentID
  let ct0 := -1 * GetParentage pm trackID
  let ct := if (alFind? st.fParticleList ct0).isSome then ct0 else noParticleId
  { st with
    fParentIDMap := pm
    fCurrentTrackID := ct
    fTargetIDMap := alInsert st.fTargetIDMap trackID ct
    fdroppedTracksMap := droppedInsert st.fdroppedTracksMap (GetParentage pm trackID) trackID }

/-- Lines 359-368, the energy-cut block: record the track in the dropped-track
ancestry map under `GetParentage(trackID)` evaluated on the map as it stands
(before this block's own insertion), clear the active slot, then insert the
track into the parent-substitution map and set current/target ids to the
negated walk result (with no known-particle check). -/
def energyCutUpdate (st : State) (trackID parentID : Int) : State :=
  let st1 := { st with
    fdroppedTracksMap := droppedInsert st.fdroppedTracksMap
      (GetParentage st.fParentIDMap trackID) trackID
    fCurrentParticle := none }
  let pm := alInsert st1.fParentIDMap trackID parentID
  let ct := -1 * GetParentage pm trackID
  { st1 with
    fParentIDMap := pm
    fCurrentTrackID := ct
    fTargetIDMap := alInsert st1.fTargetIDMap trackID ct }

/-- Lines 375-393, parent resolution: if the direct parent is known neither to
the particle list nor to the (optional) dropped list, insert the track into the
parent-substitution map and walk from the parent; keep the original parent id
(warning only) when the walk result is also unknown, using the same
dropped-list test on the original parent id as the source does. -/
def resolveParent (fParticleList : List (Int × PLEntry))
    (fdroppedParticleList : Option (List (Int × PLEntry)))
    (fParentIDMap : List (Int × Int)) (trackID parentID : Int) :
    List (Int × Int) × Int :=
  let knownMain := (alFind? fParticleList parentID).isSome
  let knownDrop :=
    match fdroppedParticleList with
    | some dl => (alFind? dl parentID).isSome
    | none => false
  if !knownMain && !knownDrop then
    let pm := alInsert fParentIDMap trackID parentID
    let pid := GetParentage pm parentID
    if !(alFind? fParticleList pid).isSome && !knownDrop then (pm, parentID)
    else (pm, pid)
  else (fParentIDMap, parentID)

/-- The four-way `keepFullTrajectory` decision of lines 422-432, as a function
of the booleans it reads. -/
def keepFullTrajectoryChain (storeTrajectories generatorStorable
    keepOnlyPrimaryFullTraj isFromMCTProcessPrimary : Bool) : Bool :=
  if !storeTrajectories then false
  else if !generatorStorable then false
  else if !keepOnlyPrimaryFullTraj then true
  else if isFromMCTProcessPrimary then true
  else false

/-- Record creation, lines 409-447 (common tail of both admission paths):
build the `simb::MCParticle`, store the truth-index and primary-process-flag
entries for the track, compute `keepFullTrajectory` (the `operator[]` read of
`fMCTIndexToGeneratorMap` default-inserts a missing entry), attach the
polarization, and then — unless the proper time is nonzero, which returns with
the record in no collection — flag the record for the dropped collection
(process-excluded tracks) or for the particle list. -/
def createRecord (cfg : Config) (st : State) (inp : TrackInput)
    (trackID parentID : Int) (process_name : String)
    (isFromMCTProcessPrimary : Bool) (primaryIndex : Option Nat)
    (primarymctIndex : Nat) (notstore : Bool) : State :=
  let mass := inp.dynamicMass / gevUnit
  let keepFull := keepFullTrajectoryChain cfg.fstoreTrajectories
    (alFindD st.fMCTIndexToGeneratorMap primarymctIndex ("", false)).2
    cfg.fkeepOnlyPrimaryFullTraj isFromMCTProcessPrimary
  let genMap :=
    if (alFind? st.fMCTIndexToGeneratorMap primarymctIndex).isSome then
      st.fMCTIndexToGeneratorMap
    else alInsert st.fMCTIndexToGeneratorMap primarymctIndex ("", false)
  let particle : Particle :=
    { trackId := trackID, pdgCode := inp.pdgCode, process := process_name,
      mother := parentID, mass := mass, polarization := inp.polarization }
  let cur : CurrentInfo :=
    { particle := particle, truthIndex := primaryIndex,
      keepFullTrajectory := keepFull }
  let st1 := { st with
    fCurrentParticle := some cur
    fMCTIndexMap := alInsert st.fMCTIndexMap trackID primarymctIndex
    fMCTPrimProcessKeepMap :=
      alInsert st.fMCTPrimProcessKeepMap trackID isFromMCTProcessPrimary
    fMCTIndexToGeneratorMap := genMap }
  if inp.properTime ≠ 0 then st1
  else if notstore then
    let cur1 := { cur with inDroppedAdd := st1.fdroppedParticleList.isSome }
    { st1 with fCurrentParticle := some cur1 }
  else
    { st1 with fCurrentParticle := some ({ cur with inMain := true }) }

/-- The primary-particle admission path (lines 265-312): normalise the process
label, take the truth indices from the `PrimaryParticleInformation`, and force
the parent id to 0; when the dynamic cast fails (`ppi == nullptr`) the defaults
("unknown" process, no indices, unmodified parent id) reach record creation. -/
def primaryAdmit (cfg : Config) (st : State) (inp : TrackInput)
    (trackID parentID : Int) (ppiOpt : Option PrimaryInfo) : State :=
  match ppiOpt with
  | some ppi =>
    let np := normalizePrimaryProcess ppi.process
    createRecord cfg st inp trackID 0 np.1 np.2 (some ppi.mcParticleIndex)
      ppi.mctIndex false
  | none => createRecord cfg st inp trackID parentID "unknown" false none 0 false

/-- The process-exclusion stage of the non-primary path (lines 322-355): bump
the rejection counter and, when a configured process matched, run the
`notstore` block. -/
def filterStage (cfg : Config) (st : State) (process_name : String)
    (trackID parentID : Int) : State :=
  if (filterMatch cfg process_name).isSome then
    notStoreUpdate (applyFilterCounter cfg st process_name) trackID parentID
  else applyFilterCounter cfg st process_name

/-- The default-inserting `operator[]` read of `fMCTPrimProcessKeepMap` at
line 406. -/
def inheritStage (st : State) (rp : Int) : State :=
  { st with fMCTPrimProcessKeepMap :=
      if (alFind? st.fMCTPrimProcessKeepMap rp).isSome then
        st.fMCTPrimProcessKeepMap
      else alInsert st.fMCTPrimProcessKeepMap rp false }

/-- Parent resolution followed by truth-index inheritance (lines 371-407):
resolve the effective parent, then inherit its MCTruth index — a missing
entry for the resolved parent is the fatal logic error of lines 400-403 —
and its primary-process flag, and create the record. -/
def resolveAndInherit (cfg : Config) (st2 : State) (inp : TrackInput)
    (trackID parentID : Int) (notstore : Bool) : Except String State :=
  let pr := resolveParent st2.fParticleList st2.fdroppedParticleList
    st2.fParentIDMap trackID parentID
  let st3 := { st2 with fParentIDMap := pr.1 }
  let rp := pr.2
  match alFind? st3.fMCTIndexMap rp with
  | some primarymctIndex =>
    let isFromMCTProcessPrimary := alFindD st3.fMCTPrimProcessKeepMap rp false
    Except.ok (createRecord cfg (inheritStage st3 rp) inp trackID rp
      inp.creatorProcess isFromMCTProcessPrimary none primarymctIndex notstore)
  | none => Except.error "LogicError: Could not locate MCT Index for parent trackID"

/-- The non-primary admission path (lines 314-407): process-exclusion filter,
energy cut (early return with no record), then parent resolution and
truth-index inheritance. -/
def nonPrimaryAdmit (cfg : Config) (st : State) (inp : TrackInput)
    (trackID parentID : Int) : Except String State :=
  let process_name := inp.creatorProcess
  let notstore := (filterMatch cfg process_name).isSome
  let st2 := filterStage cfg st process_name trackID parentID
  if inp.kineticEnergy < cfg.fenergyCut ∧ inp.pdgCode ≠ 0 then
    Except.ok (energyCutUpdate st2 trackID parentID)
  else
    resolveAndInherit cfg st2 inp trackID parentID notstore

/-- The setup of lines 249-250: `fCurrentTrackID` and the identity target-map
entry for the new track. -/
def admissionPrep (st : State) (trackID : Int) : State :=
  { st with
    fCurrentTrackID := trackID
    fTargetIDMap := alInsert st.fTargetIDMap trackID trackID }

/-- `ParticleListActionService::preUserTrackingAction` (lines 238-448).  The
track and parent ids are offset by `fTrackIDOffset` (lines 248, 252); the
current-track id and the identity target-map entry are set up front
(lines 249-250). -/
def preUserTrackingAction (cfg : Config) (st : State) (inp : TrackInput) :
    Except String State :=
  let trackID := inp.trackIdG4 + st.fTrackIDOffset
  let parentID := inp.parentIdG4 + st.fTrackIDOffset
  let st0 := admissionPrep st trackID
  match inp.primary with
  | some ppiOpt => Except.ok (primaryAdmit cfg st0 inp trackID parentID ppiOpt)
  | none => nonPrimaryAdmit cfg st0 inp trackID parentID

/-- One step point as read from a `G4StepPoint` (position, global time,
momentum, total energy). -/
structure StepPointData where
  position : ℚ × ℚ × ℚ
  globalTime : ℚ
  momentum : ℚ × ℚ × ℚ
  totalEnergy : ℚ
deriving DecidableEq, Repr

/-- The data `userSteppingAction` reads from one `G4Step`:
`postProcess = none` models a post-step point whose `GetProcessDefinedStep()`
is null. -/
structure StepInput where
  preStep : StepPointData
  postStep : StepPointData
  postProcess : Option String
  trackGlobalTime : ℚ
  trackVelocity : ℚ
  stepLength : ℚ
  deltaTime : ℚ
  trackPdg : Int
deriving DecidableEq, Repr

/-- The optical-photon timing correction of lines 530-541: for a zero-PDG
track whose step velocity disagrees with the Geant4 velocity by more than
0.0001, rewrite the post-step global time.  (This is the only mutation of a
`G4Step` made by the service; the result is also what
`postUserTrackingAction` sees when it reads the final step.) -/
def stepTimeCorrection (s : StepInput) : StepInput :=
  let velocityStep := s.stepLength / s.deltaTime
  if s.trackPdg = 0 ∧ (1 : ℚ) / 10000 < |s.trackVelocity - velocityStep| then
    { s with postStep :=
        { s.postStep with globalTime :=
            s.trackGlobalTime - s.deltaTime + s.stepLength / s.trackVelocity } }
  else s

/-- The position four-vector of a step point in LArSoft units (lines 491-494,
557-560, 596-599). -/
def fourPosOf (p : StepPointData) : LVec :=
  { x := p.position.1 / cmUnit, y := p.position.2.1 / cmUnit,
    z := p.position.2.2 / cmUnit, t := p.globalTime / nsUnit }

/-- The momentum four-vector of a step point in LArSoft units (lines 496-501,
562-567, 601-606). -/
def fourMomOf (p : StepPointData) : LVec :=
  { x := p.momentum.1 / gevUnit, y := p.momentum.2.1 / gevUnit,
    z := p.momentum.2.2 / gevUnit, t := p.totalEnergy / gevUnit }

/-- The effect of `AddPointToCurrentParticle` on the active slot. -/
def currentAddPoint (cfg : Config) (c : CurrentInfo) (pos mom : LVec)
    (process : String) : CurrentInfo :=
  { c with particle :=
      addTrajectoryPoint c.particle pos mom process cfg.fKeepTransportation }

/-- `ParticleListActionService::AddPointToCurrentParticle` (lines 729-735). -/
def AddPointToCurrentParticle (cfg : Config) (st : State) (pos mom : LVec)
    (process : String) : State :=
  match st.fCurrentParticle with
  | none => st
  | some c => { st with fCurrentParticle := some (currentAddPoint cfg c pos mom process) }

/-- `ParticleListActionService::userSteppingAction` (lines 522-611): no-op
without an active particle or a process-defined post-step; otherwise apply the
timing correction, record the pre-step sample as the unconditional "Start"
point when the trajectory is still empty, and append the post-step sample when
the step was not defined by a step limiter and the full trajectory is kept.
(The two `AddPointToCurrentParticle` calls of the source act on the active
slot, which is `some c` here, so they are written through `currentAddPoint`.) -/
def userSteppingAction (cfg : Config) (st : State) (step0 : StepInput) : State :=
  match st.fCurrentParticle, step0.postProcess with
  | none, _ => st
  | some _, none => st
  | some c, some process =>
    let step := stepTimeCorrection step0
    let c1 :=
      if c.particle.trajectory.length = 0 then
        currentAddPoint cfg c (fourPosOf step.preStep) (fourMomOf step.preStep) "Start"
      else c
    let ignoreProcess := strContainsSub process "StepLimiter"
    let c2 :=
      if !ignoreProcess && c.keepFullTrajectory then
        currentAddPoint cfg c1 (fourPosOf step.postStep) (fourMomOf step.postStep) process
      else c1
    { st with fCurrentParticle := some c2 }

/-- Spatial difference of two four-vectors. -/
def spatialSub (u v : LVec) : ℚ × ℚ × ℚ :=
  (u.x - v.x, u.y - v.y, u.z - v.z)

/-- Cross product of two spatial vectors. -/
def cross3 (u v : ℚ × ℚ × ℚ) : ℚ × ℚ × ℚ :=
  (u.2.1 * v.2.2 - u.2.2 * v.2.1,
   u.2.2 * v.1 - u.1 * v.2.2,
   u.1 * v.2.1 - u.2.1 * v.1)

/-- Squared Euclidean norm of a spatial vector. -/
def norm3Sq (u : ℚ × ℚ × ℚ) : ℚ :=
  u.1 * u.1 + u.2.1 * u.2.1 + u.2.2 * u.2.2

/-- An interior sample deviates from the chord between the trajectory
endpoints by more than the margin (squared comparison, so exact over ℚ). -/
def beyondMargin (margin : ℚ) (a b p : LVec) : Bool :=
  margin * margin * norm3Sq (spatialSub b a)
    < norm3Sq (cross3 (spatialSub p a) (spatialSub b a))

/-- Modelled from the spec: `simb::MCParticle::SparsifyTrajectory(margin,
keepSecondToLast)` (external to this repository) reduces a dense trajectory to
a subset of its samples within the configured geometric margin, always
retaining the first and the final sample, retaining the second-to-last sample
when so configured, and retaining interior samples that deviate from the chord
by more than the margin. -/
def SparsifyTrajectory (margin : ℚ) (keepSecondToLast : Bool)
    (tr : List TrajPoint) : List TrajPoint :=
  match tr with
  | [] => []
  | [a] => [a]
  | [a, b] => [a, b]
  | a :: rest =>
    let lastP := rest.getLastD a
    let body := rest.dropLast
    let n := body.length
    let kept := (body.enum.filter (fun ip =>
      (keepSecondToLast && ip.1 + 1 = n) ||
        beyondMargin margin a.fourPos lastP.fourPos ip.2.fourPos)).map (fun ip => ip.2)
    a :: (kept ++ [lastP])

/-- The data `postUserTrackingAction` reads from the ended `G4Track`: the
final weight and the track's last step (`aTrack->GetStep()`). -/
structure EndInput where
  weight : ℚ
  lastStep : Option StepInput
deriving DecidableEq, Repr

/-- `sim::ParticleList::Add` — modelled from the spec: insert the record under
its own track id, remembering the mother id. -/
def plAdd (l : List (Int × PLEntry)) (p : Particle) : List (Int × PLEntry) :=
  alInsert l p.trackId { mother := p.mother, particle := some p }

/-- `sim::ParticleList::Archive` — modelled from the spec: the entry keeps the
key and the mother id but its mapped particle becomes null. -/
def plArchive (l : List (Int × PLEntry)) (p : Particle) : List (Int × PLEntry) :=
  alInsert l p.trackId { mother := p.mother, particle := none }

/-- Commit the active record into the collections it was flagged for at
creation.  In C++ the collections hold an owning pointer to the record that is
mutated in place throughout tracking; the functional model writes the final
value at track end instead (nothing reads the entry in between). -/
def commitCurrent (st : State) (c : CurrentInfo) : State :=
  let st1 :=
    if c.inMain then
      { st with fParticleList := plAdd st.fParticleList c.particle }
    else st
  if c.inDroppedAdd then
    { st1 with fdroppedParticleList :=
        st1.fdroppedParticleList.map (fun dl => plAdd dl c.particle) }
  else st1

/-- The recording of the primary-truth association at lines 512-515: only when
the active record is a primary (`truthIndex` is a real generated-particle
index). -/
def recordPrimaryTruth (st : State) (c : CurrentInfo) : State :=
  match c.truthIndex with
  | some idx =>
    { st with fPrimaryTruthMap := alInsert st.fPrimaryTruthMap c.particle.trackId idx }
  | none => st

/-- The degenerate-final-step cleanup of lines 460-477: the record's entry is
erased from the particle list entirely (`inMain` is withdrawn, so nothing is
committed; in C++ `fParticleList.erase` removes the entry inserted at
creation), a reduced copy is archived into the dropped collection when that
collection exists and the full trajectory was not kept (otherwise a
process-excluded record keeps its plain dropped-collection entry), and the
active slot is cleared with no end process and no end sample recorded. -/
def postDegenerate (st : State) (c : CurrentInfo) : State :=
  let st1 :=
    if !c.keepFullTrajectory && st.fdroppedParticleList.isSome then
      { st with fdroppedParticleList :=
          st.fdroppedParticleList.map (fun dl => plArchive dl c.particle) }
    else if c.inDroppedAdd then
      { st with fdroppedParticleList :=
          st.fdroppedParticleList.map (fun dl => plAdd dl c.particle) }
    else st
  { st1 with fCurrentParticle := none }

/-- `ParticleListActionService::postUserTrackingAction` (lines 451-518):
no-op without an active particle; otherwise set the final weight, run the
degenerate-final-step cleanup when the post-step process is undefined, and in
the normal case record the end process, append the single end sample when the
full trajectory was not kept or sparsify it when it was, record the
primary-truth association, and commit the record. -/
def postUserTrackingAction (cfg : Config) (st : State) (aTrack : Option EndInput) :
    State :=
  match st.fCurrentParticle with
  | none => st
  | some c0 =>
    match aTrack with
    | none =>
      let st1 := recordPrimaryTruth st c0
      commitCurrent st1 c0
    | some endInp =>
      let c1 := { c0 with particle := { c0.particle with weight := endInp.weight } }
      match endInp.lastStep.map stepTimeCorrection with
      | none => postDegenerate st c1
      | some lastStep =>
        match lastStep.postProcess with
        | none => postDegenerate st c1
        | some process =>
          let p2 := { c1.particle with endProcess := some process }
          let c2 := { c1 with particle := p2 }
          let c3 :=
            if !c2.keepFullTrajectory then
              currentAddPoint cfg c2 (fourPosOf lastStep.postStep)
                (fourMomOf lastStep.postStep) process
            else if cfg.fSparsifyTrajectories then
              let tr3 := SparsifyTrajectory cfg.fSparsifyMargin cfg.fKeepSecondToLast
                c2.particle.trajectory
              let p3 := { c2.particle with trajectory := tr3 }
              { c2 with particle := p3 }
            else c2
          let st1 := { st with fCurrentParticle := some c3 }
          let st2 := recordPrimaryTruth st1 c3
          commitCurrent st2 c3

/-- One full track lifecycle as driven by the transport engine: creation, the
steps in order, then track end reading the (time-corrected) last step — the
same `G4Step` object the last `userSteppingAction` call saw. -/
def processTrack (cfg : Config) (st : State) (inp : TrackInput)
    (steps : List StepInput) (weight : ℚ) : Except String State :=
  match preUserTrackingAction cfg st inp with
  | Except.error e => Except.error e
  | Except.ok st1 =>
    let st2 := steps.foldl (userSteppingAction cfg) st1
    Except.ok (postUserTrackingAction cfg st2
      (some { weight := weight, lastStep := steps.getLast? }))

/-- The highest-track-id scan shared by `YieldList` and `YieldDroppedList`
(lines 671-680, 703-710), starting from `init`. -/
def highestOver (init : Int) (l : List (Int × PLEntry)) : Int :=
  l.foldl (fun acc kv => if acc < kv.1 then kv.1 else acc) init

/-- `ParticleListActionService::GetPrimaryTruthIndex` (lines 658-662). -/
def GetPrimaryTruthIndex (st : State) (trackId : Int) : Option Nat :=
  alFind? st.fPrimaryTruthMap trackId

/-- `ParticleListActionService::YieldList` (lines 666-690): scan the retained
(and, when present, dropped) entries for the highest track id; when the
retained list is non-empty, set the offset for the next invocation to one more
than that; move the retained list out. -/
def YieldList (st : State) : List (Int × PLEntry) × State :=
  let highestID :=
    match st.fdroppedParticleList with
    | some dl => highestOver (highestOver 0 st.fParticleList) dl
    | none => highestOver 0 st.fParticleList
  let st1 :=
    if st.fParticleList.length ≠ 0 then { st with fTrackIDOffset := highestID + 1 }
    else st
  (st1.fParticleList, { st1 with fParticleList := [] })

/-- `ParticleListActionService::YieldDroppedList` (lines 693-720): throw when
no dropped list was built at construction; otherwise the same highest-id scan
and conditional offset update as `YieldList`, moving the dropped list out. -/
def YieldDroppedList (st : State) : Except String (List (Int × PLEntry) × State) :=
  match st.fdroppedParticleList with
  | none =>
    Except.error "ParticleListAction: dropped particle list not build by user request."
  | some dl =>
    let highestID := highestOver (highestOver 0 st.fParticleList) dl
    let st1 :=
      if st.fParticleList.length ≠ 0 then { st with fTrackIDOffset := highestID + 1 }
      else st
    Except.ok (dl, { st1 with fdroppedParticleList := some [] })

/-- `ParticleListActionService::isDropped` (lines 724-727). -/
def isDropped (p : Option Particle) : Bool :=
  match p with
  | none => true
  | some q => q.trajectory.isEmpty

/-- The `UpdateDaughterInformation` functor (lines 616-655), applied to the
entry with id `particleID`: look up the mother id recorded for it; primaries
(mother ≤ 0) are skipped; an absent parent entry is an expected orphan; an
archived parent is not updated; otherwise the id is appended to the parent's
daughter list. -/
def UpdateDaughterInformation (pl : List (Int × PLEntry)) (particleID : Int) :
    List (Int × PLEntry) :=
  let parentID :=
    match alFind? pl particleID with
    | some e => e.mother
    | none => 0
  if parentID ≤ 0 then pl
  else
    match alFind? pl parentID with
    | none => pl
    | some pe =>
      match pe.particle with
      | none => pl
      | some parent =>
        let parent1 := { parent with daughters := parent.daughters ++ [particleID] }
        alInsert pl parentID { mother := pe.mother, particle := some parent1 }

/-- The inner particle loop of `endOfEventAction` (lines 778-800) for one
MCTruth object with running index `nMCTruths`: a retained particle whose
inherited MCTruth index matches is checked to have a non-empty trajectory
(the assertion at line 785, modelled as fatal) and, unless it is a
mother-0 particle with no primary-truth entry (the logic error at
lines 788-795), moved into the output particle collection. -/
def partColLoop (st : State) (nMCTruths : Nat) :
    List (Int × PLEntry) → Except String State
  | [] => Except.ok st
  | (_, e) :: rest =>
    match e.particle with
    | none => partColLoop st nMCTruths rest
    | some p =>
      if alFindD st.fMCTIndexMap p.trackId 0 ≠ nMCTruths then
        partColLoop st nMCTruths rest
      else if p.trajectory.length = 0 then
        Except.error "assertion failed: particle with no trajectory points"
      else
        let truthInfo := GetPrimaryTruthIndex st p.trackId
        if truthInfo = none ∧ p.mother = 0 then
          Except.error "LogicError: Failed to match primary particle"
        else
          partColLoop { st with partCol := st.partCol ++ [p] } nMCTruths rest

/-- The dropped-particle output loop of `endOfEventAction` (lines 801-811):
a dropped entry that is not null, has a non-empty trajectory and status code 1
is converted to a reduced record and appended. -/
def droppedColLoop (st : State) : List (Int × PLEntry) → State
  | [] => st
  | (_, e) :: rest =>
    match e.particle with
    | none => droppedColLoop st rest
    | some p =>
      if isDropped (some p) then droppedColLoop st rest
      else if p.status ≠ 1 then droppedColLoop st rest
      else droppedColLoop { st with droppedPartCol := st.droppedPartCol ++ [p] } rest

/-- One MCTruth handle's inner loop of `endOfEventAction` (lines 775-815),
iterated `size` times, threading the global MCTruth counter. -/
def truthHandleLoop (cfg : Config) (plY dlY : List (Int × PLEntry))
    (stn : State × Nat) (size : Nat) : Except String (State × Nat) :=
  (List.range size).foldlM (fun (stn : State × Nat) _ => do
    let st ← partColLoop stn.1 stn.2 plY
    let st := if cfg.fStoreDroppedMCParticles then droppedColLoop st dlY else st
    let st := { st with droppedCol := st.fdroppedTracksMap }
    pure (st, stn.2 + 1)) stn

/-- `ParticleListActionService::endOfEventAction` (lines 739-818): reset the
output collections, backfill daughter links, yield the retained (and, when
built, dropped) lists, assemble the output particle collection and truth
associations per MCTruth object, and finally reset `fTrackIDOffset` to 0
(line 817). -/
def endOfEventAction (cfg : Config) (st : State) (mcSizes : List Nat) :
    Except String State :=
  let st0 := { st with partCol := [], droppedCol := [], droppedPartCol := [] }
  let pl1 := (st0.fParticleList.map (fun kv => kv.1)).foldl
    UpdateDaughterInformation st0.fParticleList
  let st1 := { st0 with fParticleList := pl1 }
  let yielded := YieldList st1
  let plY := yielded.1
  let st2 := yielded.2
  match st2.fdroppedParticleList with
  | some _ =>
    match YieldDroppedList st2 with
    | Except.error e => Except.error e
    | Except.ok (dlY, st3) =>
      match mcSizes.foldlM (truthHandleLoop cfg plY dlY) (st3, 0) with
      | Except.error e => Except.error e
      | Except.ok (st4, _) => Except.ok { st4 with fTrackIDOffset := 0 }
  | none =>
    match mcSizes.foldlM (truthHandleLoop cfg plY []) (st2, 0) with
    | Except.error e => Except.error e
    | Except.ok (st4, _) => Except.ok { st4 with fTrackIDOffset := 0 }

/-- One full session (one simulated event): `beginOfEventAction`, the stream
of track lifecycles in causal order, then `endOfEventAction`.  `labels` are
the generator labels of the MCTruth handles and `mcSizes` the number of
MCTruth objects per handle. -/
def runSession (cfg : Config) (st : State) (labels : List String)
    (tracks : List (TrackInput × List StepInput × ℚ)) (mcSizes : List Nat) :
    Except String State :=
  let st0 := beginOfEventAction cfg st labels
  match tracks.foldlM (fun st t => processTrack cfg st t.1 t.2.1 t.2.2) st0 with
  | Except.error e => Except.error e
  | Except.ok st1 => endOfEventAction cfg st1 mcSizes

/-- The ancestor walk as the spec words it ("walking the parent-substitution
map from `parentId` until reaching an ID with no further substitution"):
defined from the spec's words, for comparison with the source's
`GetParentage`.  Starting from an id with no entry it returns that id itself
(where `GetParentage` started at an unmapped id returns the sentinel). -/
def specAncestorWalkFuel : Nat → List (Int × Int) → Int → Int
  | 0, _, cur => cur
  | Nat.succ n, m, cur =>
    match alFind? m cur with
    | none => cur
    | some p => specAncestorWalkFuel n m p

/-- The spec-side ancestor walk with the same fuel budget as `GetParentage`. -/
def specAncestorWalk (m : List (Int × Int)) (start : Int) : Int :=
  specAncestorWalkFuel (m.length + 1) m start

/-!  ## Frame and preservation lemmas  -/

/-- The active record after some stepping extends the active record before it:
all identity fields and flags are unchanged and the trajectory has only been
appended to. -/
def CurrentExtends (c c' : CurrentInfo) : Prop :=
  c'.keepFullTrajectory = c.keepFullTrajectory ∧
  c'.truthIndex = c.truthIndex ∧
  c'.inMain = c.inMain ∧
  c'.inDroppedAdd = c.inDroppedAdd ∧
  c'.particle.trackId = c.particle.trackId ∧
  c'.particle.mother = c.particle.mother ∧
  ∃ tail, c'.particle.trajectory = c.particle.trajectory ++ tail

theorem CurrentExtends.refl (c : CurrentInfo) : CurrentExtends c c :=
  ⟨rfl, rfl, rfl, rfl, rfl, rfl, [], by simp⟩

theorem CurrentExtends.trans {a b c : CurrentInfo}
    (h1 : CurrentExtends a b) (h2 : CurrentExtends b c) : CurrentExtends a c := by
  obtain ⟨k1, t1, m1, d1, i1, o1, tl1, e1⟩ := h1
  obtain ⟨k2, t2, m2, d2, i2, o2, tl2, e2⟩ := h2
  exact ⟨k2.trans k1, t2.trans t1, m2.trans m1, d2.trans d1, i2.trans i1,
    o2.trans o1, tl1 ++ tl2, by rw [e2, e1, List.append_assoc]⟩

theorem userSteppingAction_none {cfg : Config} {st : State} {s : StepInput}
    (h : st.fCurrentParticle = none) : userSteppingAction cfg st s = st := by
  unfold userSteppingAction
  rw [h]

theorem userSteppingAction_noPd {cfg : Config} {st : State} {s : StepInput}
    (h : s.postProcess = none) : userSteppingAction cfg st s = st := by
  unfold userSteppingAction
  rw [h]
  cases st.fCurrentParticle <;> rfl

theorem currentAddPoint_extends (cfg : Config) (c : CurrentInfo) (pos mom : LVec)
    (process : String) : CurrentExtends c (currentAddPoint cfg c pos mom process) :=
  ⟨rfl, rfl, rfl, rfl, rfl, rfl, _, rfl⟩

theorem currentAddPoint_len (cfg : Config) (c : CurrentInfo) (pos mom : LVec)
    (process : String) :
    (currentAddPoint cfg c pos mom process).particle.trajectory.length =
      c.particle.trajectory.length + 1 := by
  simp [currentAddPoint, addTrajectoryPoint]

theorem userSteppingAction_some_pd {cfg : Config} {st : State} {s : StepInput}
    {c : CurrentInfo} {p : String}
    (hc : st.fCurrentParticle = some c) (hp : s.postProcess = some p) :
    ∃ c', userSteppingAction cfg st s = { st with fCurrentParticle := some c' } ∧
      CurrentExtends c c' ∧
      c'.particle.trajectory.length =
        (if c.particle.trajectory.length = 0 then 1
          else c.particle.trajectory.length) +
        (if !(strContainsSub p "StepLimiter") && c.keepFullTrajectory then 1 else 0) := by
  have hrw : userSteppingAction cfg st s =
      (let step := stepTimeCorrection s
      let c1 :=
        if c.particle.trajectory.length = 0 then
          currentAddPoint cfg c (fourPosOf step.preStep) (fourMomOf step.preStep) "Start"
        else c
      let c2 :=
        if !(strContainsSub p "StepLimiter") && c.keepFullTrajectory then
          currentAddPoint cfg c1 (fourPosOf step.postStep) (fourMomOf step.postStep) p
        else c1
      { st with fCurrentParticle := some c2 }) := by
    unfold userSteppingAction
    rw [hc, hp]
  refine ⟨_, hrw, ?_, ?_⟩
  · by_cases h0 : c.particle.trajectory.length = 0 <;>
      by_cases h1 : !(strContainsSub p "StepLimiter") && c.keepFullTrajectory <;>
      simp only [h0, h1, if_pos, if_neg, if_true, if_false] <;>
      first
        | exact CurrentExtends.refl c
        | exact currentAddPoint_extends ..
        | exact (currentAddPoint_extends ..).trans (currentAddPoint_extends ..)
  · by_cases h0 : c.particle.trajectory.length = 0 <;>
      by_cases h1 : !(strContainsSub p "StepLimiter") && c.keepFullTrajectory <;>
      simp [h0, h1, currentAddPoint_len]

theorem foldl_stepping_none {cfg : Config} :
    ∀ (steps : List StepInput) (st : State), st.fCurrentParticle = none →
      steps.foldl (userSteppingAction cfg) st = st := by
  intro steps
  induction steps with
  | nil => intro st _; rfl
  | cons s rest ih =>
    intro st h
    rw [List.foldl_cons, userSteppingAction_none h]
    exact ih st h

theorem foldl_stepping_some {cfg : Config} :
    ∀ (steps : List StepInput) (st : State) (c : CurrentInfo),
      st.fCurrentParticle = some c →
      ∃ c', steps.foldl (userSteppingAction cfg) st
          = { st with fCurrentParticle := some c' } ∧ CurrentExtends c c' := by
  intro steps
  induction steps with
  | nil =>
    intro st c h
    refine ⟨c, ?_, CurrentExtends.refl c⟩
    rw [List.foldl_nil, ← h]
  | cons s rest ih =>
    intro st c h
    cases hp : s.postProcess with
    | none =>
      rw [List.foldl_cons, userSteppingAction_noPd hp]
      exact ih st c h
    | some p =>
      obtain ⟨c1, heq, hext, _⟩ := userSteppingAction_some_pd h hp
      rw [List.foldl_cons, heq]
      obtain ⟨c', heq', hext'⟩ :=
        ih { st with fCurrentParticle := some c1 } c1 rfl
      exact ⟨c', by rw [heq'], hext.trans hext'⟩

theorem foldl_stepping_keepFalse {cfg : Config} :
    ∀ (steps : List StepInput) (st : State) (c : CurrentInfo),
      st.fCurrentParticle = some c → c.keepFullTrajectory = false →
      c.particle.trajectory.length ≤ 1 →
      ∃ c', steps.foldl (userSteppingAction cfg) st
          = { st with fCurrentParticle := some c' } ∧ CurrentExtends c c' ∧
          c'.particle.trajectory.length ≤ 1 := by
  intro steps
  induction steps with
  | nil =>
    intro st c h _ hl
    refine ⟨c, ?_, CurrentExtends.refl c, hl⟩
    rw [List.foldl_nil, ← h]
  | cons s rest ih =>
    intro st c h hk hl
    cases hp : s.postProcess with
    | none =>
      rw [List.foldl_cons, userSteppingAction_noPd hp]
      exact ih st c h hk hl
    | some p =>
      obtain ⟨c1, heq, hext, hlen⟩ := userSteppingAction_some_pd h hp
      rw [hk, Bool.and_false] at hlen
      simp only [Bool.false_eq_true, if_false, Nat.add_zero] at hlen
      have hk1 : c1.keepFullTrajectory = false := hext.1.trans hk
      have hl1 : c1.particle.trajectory.length ≤ 1 := by
        rw [hlen]
        split <;> omega
      rw [List.foldl_cons, heq]
      obtain ⟨c', heq', hext', hl'⟩ :=
        ih { st with fCurrentParticle := some c1 } c1 rfl hk1 hl1
      exact ⟨c', by rw [heq'], hext.trans hext', hl'⟩

theorem CurrentExtends.len_le {c c' : CurrentInfo} (h : CurrentExtends c c') :
    c.particle.trajectory.length ≤ c'.particle.trajectory.length := by
  obtain ⟨-, -, -, -, -, -, tl, e⟩ := h
  rw [e, List.length_append]
  omega

theorem userSteppingAction_fixed {cfg : Config} {st : State} {s : StepInput}
    {c : CurrentInfo} (hc : st.fCurrentParticle = some c)
    (hk : c.keepFullTrajectory = false)
    (hl : c.particle.trajectory.length ≠ 0) :
    userSteppingAction cfg st s = st := by
  cases hp : s.postProcess with
  | none => exact userSteppingAction_noPd hp
  | some p =>
    unfold userSteppingAction
    rw [hc, hp]
    simp only [if_neg hl, hk, Bool.and_false, Bool.false_eq_true, if_false]
    rw [← hc]

theorem foldl_stepping_fixed {cfg : Config} :
    ∀ (steps : List StepInput) (st : State) (c : CurrentInfo),
      st.fCurrentParticle = some c → c.keepFullTrajectory = false →
      c.particle.trajectory.length ≠ 0 →
      steps.foldl (userSteppingAction cfg) st = st := by
  intro steps
  induction steps with
  | nil => intro st c _ _ _; rfl
  | cons s rest ih =>
    intro st c hc hk hl
    rw [List.foldl_cons, userSteppingAction_fixed hc hk hl]
    exact ih st c hc hk hl

theorem foldl_stepping_pos {cfg : Config} :
    ∀ (steps : List StepInput) (st : State) (c : CurrentInfo),
      st.fCurrentParticle = some c →
      (∃ s ∈ steps, s.postProcess ≠ none) →
      ∃ c', steps.foldl (userSteppingAction cfg) st
          = { st with fCurrentParticle := some c' } ∧ CurrentExtends c c' ∧
        1 ≤ c'.particle.trajectory.length := by
  intro steps
  induction steps with
  | nil =>
    intro st c _ hex
    simp at hex
  | cons s rest ih =>
    intro st c hc hex
    cases hp : s.postProcess with
    | none =>
      rw [List.foldl_cons, userSteppingAction_noPd hp]
      refine ih st c hc ?_
      rcases hex with ⟨s', hs', hne⟩
      rcases List.mem_cons.mp hs' with h1 | hmem
      · subst h1
        exact absurd hp hne
      · exact ⟨s', hmem, hne⟩
    | some p =>
      obtain ⟨c1, heq, hext, hlen⟩ := userSteppingAction_some_pd hc hp
      have h1 : 1 ≤ c1.particle.trajectory.length := by
        rw [hlen]
        split <;> split <;> omega
      rw [List.foldl_cons, heq]
      obtain ⟨c', heq', hext'⟩ :=
        foldl_stepping_some rest { st with fCurrentParticle := some c1 } c1 rfl
      refine ⟨c', by rw [heq'], hext.trans hext', ?_⟩
      exact le_trans h1 hext'.len_le

theorem foldl_stepping_keepFalse_proc {cfg : Config} :
    ∀ (steps : List StepInput) (st : State) (c : CurrentInfo),
      st.fCurrentParticle = some c → c.keepFullTrajectory = false →
      c.particle.trajectory = [] →
      ∃ c', steps.foldl (userSteppingAction cfg) st
          = { st with fCurrentParticle := some c' } ∧ CurrentExtends c c' ∧
        ((∃ s ∈ steps, s.postProcess ≠ none) →
          c'.particle.trajectory.map TrajPoint.process = ["Start"]) := by
  intro steps
  induction steps with
  | nil =>
    intro st c hc _ _
    refine ⟨c, ?_, CurrentExtends.refl c, ?_⟩
    · rw [List.foldl_nil, ← hc]
    · intro hex
      simp at hex
  | cons s rest ih =>
    intro st c hc hk he
    cases hp : s.postProcess with
    | none =>
      rw [List.foldl_cons, userSteppingAction_noPd hp]
      obtain ⟨c', heq, hext, hproc⟩ := ih st c hc hk he
      refine ⟨c', heq, hext, ?_⟩
      rintro ⟨s', hs', hne⟩
      rcases List.mem_cons.mp hs' with h1 | hmem
      · subst h1
        exact absurd hp hne
      · exact hproc ⟨s', hmem, hne⟩
    | some p =>
      have hl0 : c.particle.trajectory.length = 0 := by rw [he]; rfl
      have hrw : userSteppingAction cfg st s =
          { st with fCurrentParticle := some (currentAddPoint cfg c
              (fourPosOf (stepTimeCorrection s).preStep)
              (fourMomOf (stepTimeCorrection s).preStep) "Start") } := by
        unfold userSteppingAction
        rw [hc, hp]
        simp only [hl0, eq_self_iff_true, if_true, hk, Bool.and_false,
          Bool.false_eq_true, if_false]
      have hk1 : (currentAddPoint cfg c
          (fourPosOf (stepTimeCorrection s).preStep)
          (fourMomOf (stepTimeCorrection s).preStep)
          "Start").keepFullTrajectory = false := hk
      have hl1 : (currentAddPoint cfg c
          (fourPosOf (stepTimeCorrection s).preStep)
          (fourMomOf (stepTimeCorrection s).preStep)
          "Start").particle.trajectory.length ≠ 0 := by
        rw [currentAddPoint_len, hl0]
        omega
      rw [List.foldl_cons, hrw, foldl_stepping_fixed rest _ _ rfl hk1 hl1]
      refine ⟨_, rfl, currentAddPoint_extends .., ?_⟩
      intro _
      simp [currentAddPoint, addTrajectoryPoint, he]

theorem getLast?_mem_of_eq {α : Type} :
    ∀ (l : List α) (a : α), l.getLast? = some a → a ∈ l := by
  intro l
  induction l with
  | nil => intro a h; cases h
  | cons b t ih =>
    intro a h
    cases t with
    | nil =>
      rw [List.getLast?_singleton] at h
      rw [Option.some.injEq] at h
      subst h
      exact List.mem_singleton_self _
    | cons b' t' =>
      rw [List.getLast?_cons_cons] at h
      exact List.mem_cons_of_mem b (ih a h)

/-- Fields of the state that no admission stage (and no stepping) touches;
they change only at track end or at event end. -/
def AdmissionFrame (st st' : State) : Prop :=
  st'.fParticleList = st.fParticleList ∧
  st'.fdroppedParticleList = st.fdroppedParticleList ∧
  st'.fPrimaryTruthMap = st.fPrimaryTruthMap ∧
  st'.partCol = st.partCol ∧
  st'.droppedCol = st.droppedCol ∧
  st'.droppedPartCol = st.droppedPartCol

theorem AdmissionFrame.self (st : State) : AdmissionFrame st st :=
  ⟨rfl, rfl, rfl, rfl, rfl, rfl⟩

theorem AdmissionFrame.comp {a b c : State}
    (h1 : AdmissionFrame a b) (h2 : AdmissionFrame b c) : AdmissionFrame a c :=
  ⟨h2.1.trans h1.1, h2.2.1.trans h1.2.1, h2.2.2.1.trans h1.2.2.1,
    h2.2.2.2.1.trans h1.2.2.2.1, h2.2.2.2.2.1.trans h1.2.2.2.2.1,
    h2.2.2.2.2.2.trans h1.2.2.2.2.2⟩

theorem applyFilterCounter_frame (cfg : Config) (st : State) (pn : String) :
    AdmissionFrame st (applyFilterCounter cfg st pn) := by
  unfold applyFilterCounter
  split <;> exact ⟨rfl, rfl, rfl, rfl, rfl, rfl⟩

theorem notStoreUpdate_frame (st : State) (trackID parentID : Int) :
    AdmissionFrame st (notStoreUpdate st trackID parentID) :=
  ⟨rfl, rfl, rfl, rfl, rfl, rfl⟩

theorem energyCutUpdate_frame (st : State) (trackID parentID : Int) :
    AdmissionFrame st (energyCutUpdate st trackID parentID) :=
  ⟨rfl, rfl, rfl, rfl, rfl, rfl⟩

theorem createRecord_frame (cfg : Config) (st : State) (inp : TrackInput)
    (trackID parentID : Int) (pn : String) (isFrom : Bool) (pidx : Option Nat)
    (mcti : Nat) (ns : Bool) :
    AdmissionFrame st (createRecord cfg st inp trackID parentID pn isFrom pidx mcti ns) := by
  unfold AdmissionFrame createRecord
  refine ⟨?_, ?_, ?_, ?_, ?_, ?_⟩ <;> (repeat' split) <;> rfl

theorem filterStage_frame (cfg : Config) (st : State) (pn : String)
    (trackID parentID : Int) :
    AdmissionFrame st (filterStage cfg st pn trackID parentID) := by
  unfold filterStage
  split
  · exact (applyFilterCounter_frame cfg st pn).comp
      (notStoreUpdate_frame (applyFilterCounter cfg st pn) trackID parentID)
  · exact applyFilterCounter_frame cfg st pn

theorem resolveAndInherit_cases (cfg : Config) (st2 : State) (inp : TrackInput)
    (trackID parentID : Int) (notstore : Bool) :
    (∃ st1, resolveAndInherit cfg st2 inp trackID parentID notstore = Except.ok st1 ∧
      AdmissionFrame st2 st1) ∨
    (∃ msg, resolveAndInherit cfg st2 inp trackID parentID notstore
      = Except.error msg) := by
  simp only [resolveAndInherit]
  split
  · left
    refine ⟨_, rfl, ?_⟩
    refine AdmissionFrame.comp ?_ (createRecord_frame ..)
    exact ⟨rfl, rfl, rfl, rfl, rfl, rfl⟩
  · right
    exact ⟨_, rfl⟩

theorem nonPrimaryAdmit_cases (cfg : Config) (st : State) (inp : TrackInput)
    (trackID parentID : Int) :
    (∃ st1, nonPrimaryAdmit cfg st inp trackID parentID = Except.ok st1 ∧
      AdmissionFrame st st1) ∨
    (∃ msg, nonPrimaryAdmit cfg st inp trackID parentID = Except.error msg) := by
  simp only [nonPrimaryAdmit]
  split
  · left
    refine ⟨_, rfl, ?_⟩
    exact (filterStage_frame cfg st inp.creatorProcess trackID parentID).comp
      (energyCutUpdate_frame _ trackID parentID)
  · rcases resolveAndInherit_cases cfg
        (filterStage cfg st inp.creatorProcess trackID parentID) inp trackID
        parentID (filterMatch cfg inp.creatorProcess).isSome with
      ⟨st1, heq, hf⟩ | ⟨msg, heq⟩
    · left
      exact ⟨st1, heq,
        (filterStage_frame cfg st inp.creatorProcess trackID parentID).comp hf⟩
    · right
      exact ⟨msg, heq⟩

theorem preUserTrackingAction_frame {cfg : Config} {st st1 : State} {inp : TrackInput}
    (h : preUserTrackingAction cfg st inp = Except.ok st1) :
    AdmissionFrame st st1 := by
  have hst0 : AdmissionFrame st
      { st with
        fCurrentTrackID := inp.trackIdG4 + st.fTrackIDOffset
        fTargetIDMap := alInsert st.fTargetIDMap (inp.trackIdG4 + st.fTrackIDOffset)
          (inp.trackIdG4 + st.fTrackIDOffset) } :=
    ⟨rfl, rfl, rfl, rfl, rfl, rfl⟩
  cases hprim : inp.primary with
  | some ppiOpt =>
    simp only [preUserTrackingAction, hprim, Except.ok.injEq] at h
    cases ppiOpt with
    | some ppi => exact h ▸ hst0.comp (createRecord_frame ..)
    | none => exact h ▸ hst0.comp (createRecord_frame ..)
  | none =>
    simp only [preUserTrackingAction, hprim] at h
    rcases nonPrimaryAdmit_cases cfg _ inp
        (inp.trackIdG4 + st.fTrackIDOffset)
        (inp.parentIdG4 + st.fTrackIDOffset) with ⟨st2, heq, hf⟩ | ⟨msg, heq⟩
    · rw [heq] at h
      cases h
      exact hst0.comp hf
    · rw [heq] at h
      cases h

theorem preUserTrackingAction_primary_eq {cfg : Config} {st : State}
    {inp : TrackInput} {ppiOpt : Option PrimaryInfo}
    (hprim : inp.primary = some ppiOpt) :
    preUserTrackingAction cfg st inp = Except.ok
      (primaryAdmit cfg (admissionPrep st (inp.trackIdG4 + st.fTrackIDOffset)) inp
        (inp.trackIdG4 + st.fTrackIDOffset) (inp.parentIdG4 + st.fTrackIDOffset)
        ppiOpt) := by
  simp only [preUserTrackingAction, hprim]

theorem preUserTrackingAction_nonprimary_eq {cfg : Config} {st : State}
    {inp : TrackInput} (hprim : inp.primary = none) :
    preUserTrackingAction cfg st inp =
      nonPrimaryAdmit cfg (admissionPrep st (inp.trackIdG4 + st.fTrackIDOffset)) inp
        (inp.trackIdG4 + st.fTrackIDOffset) (inp.parentIdG4 + st.fTrackIDOffset) := by
  simp only [preUserTrackingAction, hprim]

theorem nonPrimaryAdmit_energy_eq {cfg : Config} {st : State} {inp : TrackInput}
    {trackID parentID : Int}
    (hcut : inp.kineticEnergy < cfg.fenergyCut ∧ inp.pdgCode ≠ 0) :
    nonPrimaryAdmit cfg st inp trackID parentID = Except.ok
      (energyCutUpdate (filterStage cfg st inp.creatorProcess trackID parentID)
        trackID parentID) := by
  simp only [nonPrimaryAdmit]
  rw [if_pos hcut]

theorem nonPrimaryAdmit_noCut_eq {cfg : Config} {st : State} {inp : TrackInput}
    {trackID parentID : Int}
    (hcut : ¬(inp.kineticEnergy < cfg.fenergyCut ∧ inp.pdgCode ≠ 0)) :
    nonPrimaryAdmit cfg st inp trackID parentID =
      resolveAndInherit cfg (filterStage cfg st inp.creatorProcess trackID parentID)
        inp trackID parentID (filterMatch cfg inp.creatorProcess).isSome := by
  simp only [nonPrimaryAdmit]
  rw [if_neg hcut]

theorem resolveAndInherit_some_eq {cfg : Config} {st2 : State} {inp : TrackInput}
    {trackID parentID : Int} {notstore : Bool} {mcti : Nat}
    (h : alFind? st2.fMCTIndexMap
      (resolveParent st2.fParticleList st2.fdroppedParticleList st2.fParentIDMap
        trackID parentID).2 = some mcti) :
    resolveAndInherit cfg st2 inp trackID parentID notstore = Except.ok
      (createRecord cfg
        (inheritStage
          { st2 with fParentIDMap := (resolveParent st2.fParticleList
              st2.fdroppedParticleList st2.fParentIDMap trackID parentID).1 }
          (resolveParent st2.fParticleList st2.fdroppedParticleList st2.fParentIDMap
            trackID parentID).2)
        inp trackID
        (resolveParent st2.fParticleList st2.fdroppedParticleList st2.fParentIDMap
          trackID parentID).2
        inp.creatorProcess
        (alFindD st2.fMCTPrimProcessKeepMap
          (resolveParent st2.fParticleList st2.fdroppedParticleList st2.fParentIDMap
            trackID parentID).2 false)
        none mcti notstore) := by
  simp only [resolveAndInherit]
  split
  · rename_i mcti' heq
    have hm : mcti' = mcti := Option.some.inj (heq.symm.trans h)
    subst hm
    rfl
  · rename_i heq
    exact absurd (heq.symm.trans h) (by simp)

theorem resolveAndInherit_none_eq {cfg : Config} {st2 : State} {inp : TrackInput}
    {trackID parentID : Int} {notstore : Bool}
    (h : alFind? st2.fMCTIndexMap
      (resolveParent st2.fParticleList st2.fdroppedParticleList st2.fParentIDMap
        trackID parentID).2 = none) :
    resolveAndInherit cfg st2 inp trackID parentID notstore =
      Except.error "LogicError: Could not locate MCT Index for parent trackID" := by
  simp only [resolveAndInherit]
  split
  · rename_i mcti' heq
    exact absurd (heq.symm.trans h) (by simp)
  · rfl

theorem createRecord_spec (cfg : Config) (st : State) (inp : TrackInput)
    (trackID parentID : Int) (pn : String) (isFrom : Bool) (pidx : Option Nat)
    (mcti : Nat) (ns : Bool) :
    ∃ c, (createRecord cfg st inp trackID parentID pn isFrom pidx mcti ns).fCurrentParticle
        = some c ∧
      c.particle.trackId = trackID ∧
      c.particle.mother = parentID ∧
      c.particle.process = pn ∧
      c.particle.trajectory = [] ∧
      c.truthIndex = pidx ∧
      c.keepFullTrajectory = keepFullTrajectoryChain cfg.fstoreTrajectories
        (alFindD st.fMCTIndexToGeneratorMap mcti ("", false)).2
        cfg.fkeepOnlyPrimaryFullTraj isFrom ∧
      (inp.properTime = 0 → ns = false → c.inMain = true) ∧
      (inp.properTime ≠ 0 → c.inMain = false ∧ c.inDroppedAdd = false) := by
  simp only [createRecord]
  split
  · rename_i hpt
    refine ⟨_, rfl, rfl, rfl, rfl, rfl, rfl, rfl, ?_, ?_⟩
    · intro h0 _
      exact absurd h0 hpt
    · intro _
      exact ⟨rfl, rfl⟩
  · rename_i hpt
    split
    · rename_i hns
      refine ⟨_, rfl, rfl, rfl, rfl, rfl, rfl, rfl, ?_, ?_⟩
      · intro _ hns0
        rw [hns0] at hns
        simp at hns
      · intro h0
        exact absurd h0 hpt
    · refine ⟨_, rfl, rfl, rfl, rfl, rfl, rfl, rfl, ?_, ?_⟩
      · intro _ _
        rfl
      · intro h0
        exact absurd h0 hpt

theorem createRecord_maps (cfg : Config) (st : State) (inp : TrackInput)
    (trackID parentID : Int) (pn : String) (isFrom : Bool) (pidx : Option Nat)
    (mcti : Nat) (ns : Bool) :
    alFind? (createRecord cfg st inp trackID parentID pn isFrom pidx mcti ns).fMCTIndexMap
        trackID = some mcti ∧
    alFind? (createRecord cfg st inp trackID parentID pn isFrom pidx mcti ns).fMCTPrimProcessKeepMap
        trackID = some isFrom ∧
    alFindD (createRecord cfg st inp trackID parentID pn isFrom pidx mcti ns).fMCTIndexToGeneratorMap
        mcti ("", false) = alFindD st.fMCTIndexToGeneratorMap mcti ("", false) := by
  simp only [createRecord]
  refine ⟨?_, ?_, ?_⟩
  · (repeat' split) <;> exact alFind?_alInsert_self ..
  · (repeat' split) <;> exact alFind?_alInsert_self ..
  · (repeat' split) <;>
      simp_all [alFindD, alFind?_alInsert_self, Option.not_isSome_iff_eq_none]

theorem stepTimeCorrection_postProcess (s : StepInput) :
    (stepTimeCorrection s).postProcess = s.postProcess := by
  simp only [stepTimeCorrection]
  split <;> rfl

theorem SparsifyTrajectory_ne_nil (margin : ℚ) (k : Bool) {tr : List TrajPoint}
    (h : tr ≠ []) : SparsifyTrajectory margin k tr ≠ [] := by
  match tr with
  | [] => exact absurd rfl h
  | [a] => simp [SparsifyTrajectory]
  | [a, b] => simp [SparsifyTrajectory]
  | a :: b :: c :: t => simp [SparsifyTrajectory]

theorem postUserTrackingAction_none {cfg : Config} {st : State}
    {aTrack : Option EndInput} (h : st.fCurrentParticle = none) :
    postUserTrackingAction cfg st aTrack = st := by
  unfold postUserTrackingAction
  rw [h]

theorem postDegenerate_fields (st : State) (c : CurrentInfo) :
    (postDegenerate st c).fParticleList = st.fParticleList ∧
    (postDegenerate st c).fCurrentParticle = none ∧
    (postDegenerate st c).fPrimaryTruthMap = st.fPrimaryTruthMap ∧
    (postDegenerate st c).partCol = st.partCol ∧
    (postDegenerate st c).fTargetIDMap = st.fTargetIDMap := by
  unfold postDegenerate
  refine ⟨?_, ?_, ?_, ?_, ?_⟩ <;> (repeat' split) <;> rfl

theorem postDegenerate_dropped_archive {st : State} {c : CurrentInfo}
    {dl : List (Int × PLEntry)}
    (h1 : st.fdroppedParticleList = some dl) (h2 : c.keepFullTrajectory = false) :
    (postDegenerate st c).fdroppedParticleList = some (plArchive dl c.particle) := by
  unfold postDegenerate
  rw [h2, h1]
  rfl

theorem postDegenerate_dropped_keepFull {st : State} {c : CurrentInfo}
    (h2 : c.keepFullTrajectory = true) (h3 : c.inDroppedAdd = false) :
    (postDegenerate st c).fdroppedParticleList = st.fdroppedParticleList := by
  unfold postDegenerate
  rw [h2, h3]
  rfl

theorem postDegenerate_dropped_none {st : State} {c : CurrentInfo}
    (h1 : st.fdroppedParticleList = none) :
    (postDegenerate st c).fdroppedParticleList = none := by
  unfold postDegenerate
  (repeat' split) <;> simp_all

theorem commitCurrent_fParticleList (st : State) (c : CurrentInfo) :
    (commitCurrent st c).fParticleList =
      if c.inMain then plAdd st.fParticleList c.particle else st.fParticleList := by
  unfold commitCurrent
  (repeat' split) <;> rfl

theorem commitCurrent_fCurrentParticle (st : State) (c : CurrentInfo) :
    (commitCurrent st c).fCurrentParticle = st.fCurrentParticle := by
  unfold commitCurrent
  (repeat' split) <;> rfl

theorem recordPrimaryTruth_fParticleList (st : State) (c : CurrentInfo) :
    (recordPrimaryTruth st c).fParticleList = st.fParticleList := by
  unfold recordPrimaryTruth
  split <;> rfl

theorem recordPrimaryTruth_fCurrentParticle (st : State) (c : CurrentInfo) :
    (recordPrimaryTruth st c).fCurrentParticle = st.fCurrentParticle := by
  unfold recordPrimaryTruth
  split <;> rfl

theorem postUserTrackingAction_some_normal {cfg : Config} {st : State}
    {c : CurrentInfo} {endInp : EndInput} {stp : StepInput} {process : String}
    (hc : st.fCurrentParticle = some c) (hstep : endInp.lastStep = some stp)
    (hpd : stp.postProcess = some process) :
    ∃ c3, postUserTrackingAction cfg st (some endInp) =
        commitCurrent (recordPrimaryTruth
          { st with fCurrentParticle := some c3 } c3) c3 ∧
      c3.keepFullTrajectory = c.keepFullTrajectory ∧
      c3.inMain = c.inMain ∧
      c3.inDroppedAdd = c.inDroppedAdd ∧
      c3.truthIndex = c.truthIndex ∧
      c3.particle.trackId = c.particle.trackId ∧
      c3.particle.mother = c.particle.mother ∧
      c3.particle.endProcess = some process ∧
      (c.keepFullTrajectory = false →
        c3.particle.trajectory.length = c.particle.trajectory.length + 1) ∧
      (c.keepFullTrajectory = true →
        c3.particle.trajectory = SparsifyTrajectory cfg.fSparsifyMargin
            cfg.fKeepSecondToLast c.particle.trajectory ∨
          c3.particle.trajectory = c.particle.trajectory) ∧
      (c.keepFullTrajectory = false →
        c3.particle.trajectory.map TrajPoint.process
          = c.particle.trajectory.map TrajPoint.process ++ [process]) := by
  obtain ⟨w, ls⟩ := endInp
  have hls : ls = some stp := hstep
  subst hls
  have hpd' : (stepTimeCorrection stp).postProcess = some process :=
    (stepTimeCorrection_postProcess stp).trans hpd
  unfold postUserTrackingAction
  rw [hc]
  simp only [Option.map_some', hpd']
  by_cases hk : c.keepFullTrajectory
  · by_cases hs : cfg.fSparsifyTrajectories
    · rw [hk]
      simp only [Bool.not_true, Bool.false_eq_true, if_false, hs, if_true]
      refine ⟨_, rfl, rfl, rfl, rfl, rfl, rfl, rfl, rfl, ?_, ?_, ?_⟩
      · intro hkf
        simp at hkf
      · intro _
        left
        rfl
      · intro hkf
        simp at hkf
    · rw [hk]
      simp only [Bool.not_true, Bool.false_eq_true, if_false, hs, if_true]
      refine ⟨_, rfl, rfl, rfl, rfl, rfl, rfl, rfl, rfl, ?_, ?_, ?_⟩
      · intro hkf
        simp at hkf
      · intro _
        right
        rfl
      · intro hkf
        simp at hkf
  · rw [Bool.eq_false_iff.mpr hk]
    simp only [Bool.not_false, if_true]
    refine ⟨_, rfl, rfl, rfl, rfl, rfl, rfl, rfl, rfl, ?_, ?_, ?_⟩
    · intro _
      simp [currentAddPoint, addTrajectoryPoint]
    · intro hkt
      simp at hkt
    · intro _
      simp [currentAddPoint, addTrajectoryPoint]

theorem alFindD_alInsert_self {κ α : Type} [DecidableEq κ]
    (m : List (κ × α)) (k : κ) (v d : α) : alFindD (alInsert m k v) k d = v := by
  simp [alFindD, alFind?_alInsert_self]

theorem createRecord_fTargetIDMap (cfg : Config) (st : State) (inp : TrackInput)
    (trackID parentID : Int) (pn : String) (isFrom : Bool) (pidx : Option Nat)
    (mcti : Nat) (ns : Bool) :
    (createRecord cfg st inp trackID parentID pn isFrom pidx mcti ns).fTargetIDMap
      = st.fTargetIDMap := by
  simp only [createRecord]
  (repeat' split) <;> rfl

theorem applyFilterCounter_fTargetIDMap (cfg : Config) (st : State) (pn : String) :
    (applyFilterCounter cfg st pn).fTargetIDMap = st.fTargetIDMap := by
  unfold applyFilterCounter
  split <;> rfl

theorem applyFilterCounter_fParticleList (cfg : Config) (st : State) (pn : String) :
    (applyFilterCounter cfg st pn).fParticleList = st.fParticleList :=
  (applyFilterCounter_frame cfg st pn).1

theorem applyFilterCounter_fParentIDMap (cfg : Config) (st : State) (pn : String) :
    (applyFilterCounter cfg st pn).fParentIDMap = st.fParentIDMap := by
  unfold applyFilterCounter
  split <;> rfl

theorem applyFilterCounter_fMCTIndexMap (cfg : Config) (st : State) (pn : String) :
    (applyFilterCounter cfg st pn).fMCTIndexMap = st.fMCTIndexMap := by
  unfold applyFilterCounter
  split <;> rfl

theorem applyFilterCounter_fMCTPrimProcessKeepMap (cfg : Config) (st : State)
    (pn : String) :
    (applyFilterCounter cfg st pn).fMCTPrimProcessKeepMap
      = st.fMCTPrimProcessKeepMap := by
  unfold applyFilterCounter
  split <;> rfl

theorem filterStage_fMCTIndexMap (cfg : Config) (st : State) (pn : String)
    (trackID parentID : Int) :
    (filterStage cfg st pn trackID parentID).fMCTIndexMap = st.fMCTIndexMap := by
  unfold filterStage
  split
  · exact applyFilterCounter_fMCTIndexMap ..
  · exact applyFilterCounter_fMCTIndexMap ..

theorem filterStage_fMCTPrimProcessKeepMap (cfg : Config) (st : State) (pn : String)
    (trackID parentID : Int) :
    (filterStage cfg st pn trackID parentID).fMCTPrimProcessKeepMap
      = st.fMCTPrimProcessKeepMap := by
  unfold filterStage
  split
  · exact applyFilterCounter_fMCTPrimProcessKeepMap ..
  · exact applyFilterCounter_fMCTPrimProcessKeepMap ..

theorem energyCutUpdate_fCurrentParticle (st : State) (trackID parentID : Int) :
    (energyCutUpdate st trackID parentID).fCurrentParticle = none := rfl

theorem droppedInsert_mem (m : List (Int × List Int)) (key trackID : Int) :
    (alFindD (droppedInsert m key trackID) key []).contains trackID = true := by
  unfold droppedInsert
  by_cases hc : (alFindD m key []).contains trackID
  · rw [if_pos hc]
    exact hc
  · rw [if_neg hc, alFindD_alInsert_self]
    simp

theorem charsLead_refl (l : List Char) : charsLead l l = true := by
  induction l with
  | nil => rfl
  | cons a t ih => simp [charsLead, ih]

/-- The fold step of the highest-track-id scan, over bare keys. -/
def keysFold (init : Int) (keys : List Int) : Int :=
  keys.foldl (fun acc k => if acc < k then k else acc) init

theorem highestOver_eq_keysFold (init : Int) (l : List (Int × PLEntry)) :
    highestOver init l = keysFold init (l.map Prod.fst) := by
  unfold highestOver keysFold
  rw [List.foldl_map]

theorem keysFold_init_le (init : Int) (keys : List Int) :
    init ≤ keysFold init keys := by
  induction keys generalizing init with
  | nil => simp [keysFold]
  | cons k t ih =>
    simp only [keysFold, List.foldl_cons]
    refine le_trans ?_ (ih (if init < k then k else init))
    split <;> omega

theorem keysFold_mem_le (keys : List Int) :
    ∀ init k, k ∈ keys → k ≤ keysFold init keys := by
  induction keys with
  | nil => intro _ k h; simp at h
  | cons a t ih =>
    intro init k h
    rcases List.mem_cons.mp h with h1 | h2
    · subst h1
      refine le_trans ?_ (keysFold_init_le (if init < k then k else init) t)
      split <;> omega
    · exact ih _ k h2

theorem keysFold_le_bound (keys : List Int) :
    ∀ init M, init ≤ M → (∀ k ∈ keys, k ≤ M) → keysFold init keys ≤ M := by
  induction keys with
  | nil => intro _ _ h _; simpa [keysFold] using h
  | cons a t ih =>
    intro init M h hall
    simp only [keysFold, List.foldl_cons]
    refine ih _ M ?_ (fun k hk => hall k (List.mem_cons_of_mem _ hk))
    have := hall a (List.mem_cons_self _ _)
    split <;> omega

theorem keysFold_append (init : Int) (k1 k2 : List Int) :
    keysFold init (k1 ++ k2) = keysFold (keysFold init k1) k2 := by
  unfold keysFold
  rw [List.foldl_append]

/-!  ## Concrete demonstration inputs  -/

/-- A plain configuration: default-like values, no energy cut, trajectories
stored, shower daughters kept, no dropped-particle retention. -/
def demoConfig : Config :=
  { fenergyCut := 0, fstoreTrajectories := true, fkeepGenTrajectories := [],
    fKeepEMShowerDaughters := true, fNotStoredPhysics := [],
    fkeepOnlyPrimaryFullTraj := false, fSparsifyTrajectories := false,
    fSparsifyMargin := mkRat 3 200, fKeepTransportation := false,
    fKeepSecondToLast := false, fStoreDroppedMCParticles := false }

/-- `demoConfig` with a 1-unit energy cut. -/
def demoConfigCut : Config := { demoConfig with fenergyCut := 1 }

/-- `demoConfig` with shower-daughter suppression on (so the built-in default
`NotStoredPhysics` list applies, which contains "phot"). -/
def demoConfigEM : Config :=
  resolveConfig { demoConfig with fKeepEMShowerDaughters := false }

/-- The pre-step point of `demoStep`. -/
def demoPrePoint : StepPointData :=
  { position := (0, 0, 0), globalTime := 0, momentum := (0, 0, 0), totalEnergy := 1 }

/-- The post-step point of `demoStep`. -/
def demoPostPoint : StepPointData :=
  { position := (1, 0, 0), globalTime := 1, momentum := (0, 0, 0), totalEnergy := 1 }

/-- One ordinary step with a process-defined post-step point. -/
def demoStep : StepInput :=
  { preStep := demoPrePoint, postStep := demoPostPoint,
    postProcess := some "Transportation",
    trackGlobalTime := 0, trackVelocity := 1, stepLength := 1, deltaTime := 1,
    trackPdg := 13 }

/-- A primary muon track with local id 1 and MCTruth process "primary". -/
def demoPrimaryTrack : TrackInput :=
  { trackIdG4 := 1, parentIdG4 := 0, pdgCode := 13, creatorProcess := "none",
    primary := some (some { mcParticleIndex := 0, mctIndex := 0, process := "primary" }),
    kineticEnergy := 1000, dynamicMass := 105, polarization := (0, 0, 0),
    properTime := 0 }

/-- A secondary electron track, id 2, parent 1, creator process "phot",
kinetic energy 1/2 (below `demoConfigCut`'s cut). -/
def demoSecondaryTrack : TrackInput :=
  { trackIdG4 := 2, parentIdG4 := 1, pdgCode := 11, creatorProcess := "phot",
    primary := none, kineticEnergy := mkRat 1 2, dynamicMass := mkRat 1 2,
    polarization := (0, 0, 0), properTime := 0 }

/-- `demoSecondaryTrack` with energy above every demo cut. -/
def demoEnergeticSecondary : TrackInput :=
  { demoSecondaryTrack with kineticEnergy := 1000 }

/-- The state of a `demoConfigCut` session after the primary track was
processed: the particle list holds exactly particle 1. -/
def demoStateCut : State :=
  match processTrack demoConfigCut
      (beginOfEventAction demoConfigCut (initialState demoConfigCut) ["gen"])
      demoPrimaryTrack [demoStep] 1 with
  | Except.ok st => st
  | Except.error _ => initialState demoConfigCut

/-- The analogous mid-event state for `demoConfigEM`. -/
def demoStateEM : State :=
  match processTrack demoConfigEM
      (beginOfEventAction demoConfigEM (initialState demoConfigEM) ["gen"])
      demoPrimaryTrack [demoStep] 1 with
  | Except.ok st => st
  | Except.error _ => initialState demoConfigEM

/-- The state reached after admitting the process-excluded energetic secondary
on top of `demoStateEM`. -/
def demoStateExcl : State :=
  match preUserTrackingAction demoConfigEM demoStateEM demoEnergeticSecondary with
  | Except.ok st => st
  | Except.error _ => initialState demoConfigEM

theorem inheritStage_fTargetIDMap (st : State) (rp : Int) :
    (inheritStage st rp).fTargetIDMap = st.fTargetIDMap := rfl

theorem energyCutUpdate_fdroppedTracksMap (st : State) (trackID parentID : Int) :
    (energyCutUpdate st trackID parentID).fdroppedTracksMap =
      droppedInsert st.fdroppedTracksMap (GetParentage st.fParentIDMap trackID)
        trackID := rfl

/-- The state after the energy-cut drop of `demoSecondaryTrack` on top of
`demoStateCut`. -/
def demoStateDrop : State :=
  match preUserTrackingAction demoConfigCut demoStateCut demoSecondaryTrack with
  | Except.ok st => st
  | Except.error _ => initialState demoConfigCut

theorem inheritStage_fMCTIndexMap (st : State) (rp : Int) :
    (inheritStage st rp).fMCTIndexMap = st.fMCTIndexMap := rfl

/-- The mid-event state of a `demoConfig` session after the primary track was
processed. -/
def demoStateMain : State :=
  match processTrack demoConfig
      (beginOfEventAction demoConfig (initialState demoConfig) ["gen"])
      demoPrimaryTrack [demoStep] 1 with
  | Except.ok st => st
  | Except.error _ => initialState demoConfig

/-- The state left by `endOfEventAction` after the one-primary demo event. -/
def demoEndState : State :=
  match endOfEventAction demoConfig demoStateMain [1] with
  | Except.ok st => st
  | Except.error _ => initialState demoConfig

/-- The effective (resolved) parent id a non-primary track inherits from:
the second component of `resolveParent` evaluated on the state as it stands
after the process-exclusion stage (lines 375-393). -/
def resolvedParentOf (cfg : Config) (st : State) (inp : TrackInput)
    (trackID parentID : Int) : Int :=
  (resolveParent (filterStage cfg st inp.creatorProcess trackID parentID).fParticleList
    (filterStage cfg st inp.creatorProcess trackID parentID).fdroppedParticleList
    (filterStage cfg st inp.creatorProcess trackID parentID).fParentIDMap
    trackID parentID).2

/-- Modelled from the spec: the ordered four-step trajectory-keeping decision
("global trajectory storage disabled ⇒ false; else generator not marked
storable ⇒ false; else only-primary-full-trajectory policy disabled ⇒ true;
else from-primary-process flag ⇒ true; else false"), for comparison with the
source's decision chain of lines 422-432. -/
def keepFullTrajectorySpec (storeTrajectories generatorStorable
    keepOnlyPrimaryFullTraj isFromMCTProcessPrimary : Bool) : Bool :=
  if storeTrajectories = false then false
  else if generatorStorable = false then false
  else if keepOnlyPrimaryFullTraj = false then true
  else if isFromMCTProcessPrimary = true then true
  else false

theorem keepChain_eq_spec : ∀ s g k f,
    keepFullTrajectoryChain s g k f = keepFullTrajectorySpec s g k f := by
  decide

/-- Modelled from the spec: the three exclusive normalisation cases for the
process label of a track with primary provenance ("exactly primary ⇒ keep,
flag true; merely starts with primary ⇒ keep as-is, flag false; any other
label ⇒ override to primary, flag true"), for comparison with the source's
normalisation of lines 286-303. -/
def normalizePrimarySpec (label : String) : String × Bool :=
  if label = "primary" then ("primary", true)
  else if strStartsWith label "primary" then (label, false)
  else ("primary", true)

theorem normalizePrimaryProcess_eq_spec (l : String) :
    normalizePrimaryProcess l = normalizePrimarySpec l := by
  unfold normalizePrimaryProcess normalizePrimarySpec
  by_cases h : l = "primary"
  · simp [h]
  · simp [h]

theorem processTrack_ok_eq {cfg : Config} {st st1 : State} {inp : TrackInput}
    (steps : List StepInput) (weight : ℚ)
    (h : preUserTrackingAction cfg st inp = Except.ok st1) :
    processTrack cfg st inp steps weight = Except.ok
      (postUserTrackingAction cfg (steps.foldl (userSteppingAction cfg) st1)
        (some { weight := weight, lastStep := steps.getLast? })) := by
  unfold processTrack
  rw [h]

/-- `demoConfig` with dropped-particle retention enabled. -/
def demoConfigDrop : Config := { demoConfig with fStoreDroppedMCParticles := true }

/-- The particle of `demoCurrent`. -/
def demoParticle7 : Particle :=
  { trackId := 7, pdgCode := 11, process := "phot", mother := 1, mass := 0 }

/-- An active record mid-track: secondary electron, no full trajectory. -/
def demoCurrent : CurrentInfo :=
  { particle := demoParticle7, truthIndex := none, keepFullTrajectory := false }

/-- A fresh dropped-retention state with `demoCurrent` active. -/
def demoStateDegen : State :=
  { initialState demoConfigDrop with fCurrentParticle := some demoCurrent }

/-- `demoStep` with no process-defined post-step point (degenerate final
step). -/
def demoDegenStep : StepInput := { demoStep with postProcess := none }

/-- Track-end input carrying the degenerate final step. -/
def demoDegenEnd : EndInput := { weight := 1, lastStep := some demoDegenStep }

/-- The state reached after admitting `demoPrimaryTrack` on a fresh
`demoConfig` event. -/
def demoStatePre : State :=
  match preUserTrackingAction demoConfig
      (beginOfEventAction demoConfig (initialState demoConfig) ["gen"])
      demoPrimaryTrack with
  | Except.ok st => st
  | Except.error _ => initialState demoConfig

/-- The active record of `demoStatePre`. -/
def demoCurrentPre : CurrentInfo :=
  match demoStatePre.fCurrentParticle with
  | some c => c
  | none => demoCurrent

/-!  ## The claims  -/

/-- Claim C2 (amended): the ancestor walk of `GetParentage` terminates — on a
parent-substitution map whose entries decrease (the causal situation), every
fuel beyond the map size gives the same result as the bounded walk — and, for
a track dropped by the process-exclusion filter (and not also caught by the
energy cut), the recorded effective identity is either the no-particle
sentinel or an id known to the retained particle list.  (For a track dropped
by the energy cut the recorded identity is the negated walk result with no
known-particle check — see the counterexample — so the original claim's
clause about energy-cut drops fails.) -/
theorem C2_walk_terminates_and_exclusion_identity_checked :
    (∀ (m : List (Int × Int)), DecreasingMap m → ∀ (t : Int) (f : Nat),
      m.length < f → getParentageFuel m f t noParticleId = GetParentage m t) ∧
    (∀ (cfg : Config) (st : State) (inp : TrackInput) (st1 : State),
      inp.primary = none →
      (filterMatch cfg inp.creatorProcess).isSome = true →
      ¬(inp.kineticEnergy < cfg.fenergyCut ∧ inp.pdgCode ≠ 0) →
      preUserTrackingAction cfg st inp = Except.ok st1 →
      alFindD st1.fTargetIDMap (inp.trackIdG4 + st.fTrackIDOffset) 0 = noParticleId ∨
      (alFind? st1.fParticleList
        (alFindD st1.fTargetIDMap (inp.trackIdG4 + st.fTrackIDOffset) 0)).isSome
          = true) := by
  constructor
  · intro m hdec t f hf
    unfold GetParentage
    exact getParentageFuel_stable hdec f t noParticleId (m.length + 1)
      (lt_of_le_of_lt (countKeysLE_le_length m t) hf)
      (Nat.lt_succ_of_le (countKeysLE_le_length m t))
  · intro cfg st inp st1 hprim hns hcut hpre
    have hframe := preUserTrackingAction_frame hpre
    rw [preUserTrackingAction_nonprimary_eq hprim,
      nonPrimaryAdmit_noCut_eq hcut] at hpre
    set tid := inp.trackIdG4 + st.fTrackIDOffset with htid
    set pid := inp.parentIdG4 + st.fTrackIDOffset with hpid
    set st2 := filterStage cfg (admissionPrep st tid) inp.creatorProcess tid pid
      with hst2
    cases hfind : alFind? st2.fMCTIndexMap
        (resolveParent st2.fParticleList st2.fdroppedParticleList st2.fParentIDMap
          tid pid).2 with
    | some mcti =>
      rw [resolveAndInherit_some_eq hfind] at hpre
      cases hpre
      rw [hframe.1]
      rw [createRecord_fTargetIDMap, inheritStage_fTargetIDMap]
      have htgt : ({ st2 with fParentIDMap := (resolveParent st2.fParticleList
          st2.fdroppedParticleList st2.fParentIDMap tid pid).1 }).fTargetIDMap
          = st2.fTargetIDMap := rfl
      rw [htgt, hst2]
      simp only [filterStage, hns, if_true, notStoreUpdate,
        applyFilterCounter_fTargetIDMap, applyFilterCounter_fParticleList,
        admissionPrep, alFindD_alInsert_self]
      split
      · rename_i hknown
        right
        exact hknown
      · left
        rfl
    | none =>
      rw [resolveAndInherit_none_eq hfind] at hpre
      cases hpre

/-- Claim C2, counterexample to the original statement: with particle 1
retained and the 1-unit energy cut, admitting the secondary track 2
(parent 1, kinetic energy 1/2) records effective identity -1 for it — an id
that is neither the no-particle sentinel nor an id present in the retained
particle list. -/
theorem C2_counterexample :
    ((preUserTrackingAction demoConfigCut demoStateCut demoSecondaryTrack).toOption.map
      (fun st1 => (alFindD st1.fTargetIDMap 2 0,
        (alFind? st1.fParticleList (alFindD st1.fTargetIDMap 2 0)).isSome)))
      = some (-1, false) ∧
    (-1 : Int) ≠ noParticleId := by
  constructor
  · decide
  · decide

/-- Claim C2, witness: the termination statement at the concrete decreasing
map [(2, 1)] with surplus fuel, and the checked-identity statement at the
concrete process-excluded admission of `demoStateExcl`. -/
theorem C2_witness :
    getParentageFuel [((2 : Int), (1 : Int))] 5 2 noParticleId
      = GetParentage [(2, 1)] 2 ∧
    (alFindD demoStateExcl.fTargetIDMap 2 0 = noParticleId ∨
      (alFind? demoStateExcl.fParticleList
        (alFindD demoStateExcl.fTargetIDMap 2 0)).isSome = true) :=
  ⟨C2_walk_terminates_and_exclusion_identity_checked.1 [(2, 1)]
      (by intro kv hkv; rw [List.mem_singleton] at hkv; subst hkv; decide) 2 5
      (by decide),
    C2_walk_terminates_and_exclusion_identity_checked.2 demoConfigEM demoStateEM
      demoEnergeticSecondary demoStateExcl rfl (by decide) (by decide) rfl⟩

/-- Claim C3 (amended): a non-primary track dropped by the energy cut is
recorded in the dropped-track ancestry map under `GetParentage` of the track's
own id evaluated on the parent-substitution map as it stands before the
energy-cut block inserts the track's entry (so under the no-particle sentinel
unless the process-exclusion filter had already registered the track), the
active slot is cleared, and no record enters the particle list. -/
theorem C3_energy_drop_recording :
    ∀ (cfg : Config) (st : State) (inp : TrackInput) (st1 : State),
      inp.primary = none →
      inp.kineticEnergy < cfg.fenergyCut → inp.pdgCode ≠ 0 →
      preUserTrackingAction cfg st inp = Except.ok st1 →
      ((alFindD st1.fdroppedTracksMap
        (GetParentage (filterStage cfg
          (admissionPrep st (inp.trackIdG4 + st.fTrackIDOffset))
          inp.creatorProcess (inp.trackIdG4 + st.fTrackIDOffset)
          (inp.parentIdG4 + st.fTrackIDOffset)).fParentIDMap
          (inp.trackIdG4 + st.fTrackIDOffset)) []).contains
        (inp.trackIdG4 + st.fTrackIDOffset) = true) ∧
      st1.fCurrentParticle = none ∧
      st1.fParticleList = st.fParticleList := by
  intro cfg st inp st1 hprim hke hpdg hpre
  have hframe := preUserTrackingAction_frame hpre
  rw [preUserTrackingAction_nonprimary_eq hprim,
    nonPrimaryAdmit_energy_eq ⟨hke, hpdg⟩] at hpre
  cases hpre
  refine ⟨?_, rfl, hframe.1⟩
  rw [energyCutUpdate_fdroppedTracksMap]
  exact droppedInsert_mem ..

/-- Claim C3, counterexample to the original statement: the energy-cut drop of
track 2 (parent 1, with particle 1 retained and no prior substitution entries)
is recorded in the ancestry map under the no-particle sentinel, while the
ancestor walk from its parent — the key the claim requires — yields 1, under
which nothing is recorded. -/
theorem C3_counterexample :
    ((preUserTrackingAction demoConfigCut demoStateCut demoSecondaryTrack).toOption.map
      (fun st1 => (alFind? st1.fdroppedTracksMap noParticleId,
        alFind? st1.fdroppedTracksMap (specAncestorWalk st1.fParentIDMap 1))))
      = some (some [2], none) ∧
    specAncestorWalk [((2 : Int), (1 : Int))] 1 = 1 ∧
    noParticleId ≠ 1 := by
  refine ⟨by decide, by decide, by decide⟩

/-- Claim C3, witness: the amended statement at the concrete energy-cut drop
of `demoSecondaryTrack`. -/
theorem C3_witness :
    ((alFindD demoStateDrop.fdroppedTracksMap
      (GetParentage (filterStage demoConfigCut
        (admissionPrep demoStateCut
          (demoSecondaryTrack.trackIdG4 + demoStateCut.fTrackIDOffset))
        demoSecondaryTrack.creatorProcess
        (demoSecondaryTrack.trackIdG4 + demoStateCut.fTrackIDOffset)
        (demoSecondaryTrack.parentIdG4 + demoStateCut.fTrackIDOffset)).fParentIDMap
        (demoSecondaryTrack.trackIdG4 + demoStateCut.fTrackIDOffset)) []).contains
      (demoSecondaryTrack.trackIdG4 + demoStateCut.fTrackIDOffset) = true) ∧
    demoStateDrop.fCurrentParticle = none ∧
    demoStateDrop.fParticleList = demoStateCut.fParticleList :=
  C3_energy_drop_recording demoConfigCut demoStateCut demoSecondaryTrack
    demoStateDrop rfl (by decide) (by decide) rfl

/-- Claim C1 (amended): the track-id offset is NOT carried across sessions —
`endOfEventAction` resets `fTrackIDOffset` to 0 whenever it succeeds
(line 817), and `beginOfEventAction` resets it to 0 as well (line 145), so the
offset carried into a following session is 0 rather than one more than the
previous session's maximum retained id. -/
theorem C1_offset_reset_at_session_boundaries :
    ∀ (cfg : Config) (st st' : State) (labels : List String) (mcSizes : List Nat),
      (beginOfEventAction cfg st labels).fTrackIDOffset = 0 ∧
      (endOfEventAction cfg st mcSizes = Except.ok st' →
        st'.fTrackIDOffset = 0) := by
  intro cfg st st' labels mcSizes
  refine ⟨rfl, fun h => ?_⟩
  simp only [endOfEventAction] at h
  split at h
  · split at h
    · exact absurd h (by simp)
    · split at h
      · exact absurd h (by simp)
      · cases h; rfl
  · split at h
    · exact absurd h (by simp)
    · cases h; rfl

/-- Claim C1, counterexample to the original statement: two consecutive
`demoConfig` sessions each retain exactly one particle with local id 1, so the
claim requires the offset carried into session 2 to be 2 and session 2's
particle to receive a global id of at least 2; in fact the carried offset is 0
and session 2's particle receives id 1. -/
theorem C1_counterexample :
    ((runSession demoConfig (initialState demoConfig) ["gen"]
        [(demoPrimaryTrack, [demoStep], 1)] [1]).toOption.map
      (fun st1 =>
        (st1.fTrackIDOffset,
          (runSession demoConfig st1 ["gen"]
            [(demoPrimaryTrack, [demoStep], 1)] [1]).toOption.map
            (fun st2 => st2.partCol.map (fun p => p.trackId)))))
      = some (0, some [1]) ∧ ¬ ((2 : Int) ≤ 1) :=
  ⟨by decide, by decide⟩

/-- Claim C1, witness: the amended statement at the concrete one-primary demo
event. -/
theorem C1_witness :
    (beginOfEventAction demoConfig demoStateMain ["gen"]).fTrackIDOffset = 0 ∧
    demoEndState.fTrackIDOffset = 0 :=
  ⟨(C1_offset_reset_at_session_boundaries demoConfig demoStateMain demoEndState
      ["gen"] [1]).1,
    (C1_offset_reset_at_session_boundaries demoConfig demoStateMain demoEndState
      ["gen"] [1]).2 rfl⟩

/-- Claim C4: for a non-primary track that passes the energy cut (so that
parent resolution runs), admission raises the fatal logic error exactly when
the resolved parent has no entry in the truth-index map; when the entry
exists, admission succeeds and the created record carries the parent's truth
index and primary-process flag. -/
theorem C4_missing_truth_index_is_the_only_fatal :
    ∀ (cfg : Config) (st : State) (inp : TrackInput) (trackID parentID : Int),
      ¬(inp.kineticEnergy < cfg.fenergyCut ∧ inp.pdgCode ≠ 0) →
      ((∃ msg, nonPrimaryAdmit cfg st inp trackID parentID = Except.error msg) ↔
        alFind? (filterStage cfg st inp.creatorProcess trackID parentID).fMCTIndexMap
          (resolvedParentOf cfg st inp trackID parentID) = none) ∧
      (∀ mcti,
        alFind? (filterStage cfg st inp.creatorProcess trackID parentID).fMCTIndexMap
          (resolvedParentOf cfg st inp trackID parentID) = some mcti →
        ∃ st1, nonPrimaryAdmit cfg st inp trackID parentID = Except.ok st1 ∧
          alFind? st1.fMCTIndexMap trackID = some mcti ∧
          alFind? st1.fMCTPrimProcessKeepMap trackID = some (alFindD
            (filterStage cfg st inp.creatorProcess trackID
              parentID).fMCTPrimProcessKeepMap
            (resolvedParentOf cfg st inp trackID parentID) false)) := by
  intro cfg st inp trackID parentID hcut
  constructor
  · constructor
    · rintro ⟨msg, hmsg⟩
      rw [nonPrimaryAdmit_noCut_eq hcut] at hmsg
      cases hfind : alFind?
          (filterStage cfg st inp.creatorProcess trackID parentID).fMCTIndexMap
          (resolvedParentOf cfg st inp trackID parentID) with
      | none => rfl
      | some mcti =>
        rw [resolveAndInherit_some_eq hfind] at hmsg
        exact absurd hmsg (by simp)
    · intro hnone
      exact ⟨"LogicError: Could not locate MCT Index for parent trackID",
        by rw [nonPrimaryAdmit_noCut_eq hcut, resolveAndInherit_none_eq hnone]⟩
  · intro mcti hfind
    rw [nonPrimaryAdmit_noCut_eq hcut, resolveAndInherit_some_eq hfind]
    exact ⟨_, rfl, (createRecord_maps ..).1, (createRecord_maps ..).2.1⟩

/-- Claim C4, witness: the concrete admission of the energetic secondary on
top of the retained primary — no error is raised, and the secondary inherits
truth index 0 and the primary's primary-process flag. -/
theorem C4_witness :
    ((∃ msg, nonPrimaryAdmit demoConfigCut demoStateCut demoEnergeticSecondary 2 1
        = Except.error msg) ↔
      alFind? (filterStage demoConfigCut demoStateCut
        demoEnergeticSecondary.creatorProcess 2 1).fMCTIndexMap
        (resolvedParentOf demoConfigCut demoStateCut demoEnergeticSecondary 2 1)
        = none) ∧
    (∃ st1, nonPrimaryAdmit demoConfigCut demoStateCut demoEnergeticSecondary 2 1
        = Except.ok st1 ∧
      alFind? st1.fMCTIndexMap 2 = some 0 ∧
      alFind? st1.fMCTPrimProcessKeepMap 2 = some (alFindD
        (filterStage demoConfigCut demoStateCut
          demoEnergeticSecondary.creatorProcess 2 1).fMCTPrimProcessKeepMap
        (resolvedParentOf demoConfigCut demoStateCut demoEnergeticSecondary 2 1)
        false)) :=
  ⟨(C4_missing_truth_index_is_the_only_fatal demoConfigCut demoStateCut
      demoEnergeticSecondary 2 1 (by decide)).1,
    (C4_missing_truth_index_is_the_only_fatal demoConfigCut demoStateCut
      demoEnergeticSecondary 2 1 (by decide)).2 0 (by decide)⟩

/-- Claim C6: every record created by `createRecord` carries a
`keepFullTrajectory` flag equal to the ordered four-step decision chain of the
spec, evaluated at the global storage switch, the Generator Keep-Map entry of
the record's MCTruth index, the only-primary-full-trajectory policy and the
record's from-primary-process flag. -/
theorem C6_keepFullTrajectory_decision_chain :
    ∀ (cfg : Config) (st : State) (inp : TrackInput) (trackID parentID : Int)
      (pn : String) (isFrom : Bool) (pidx : Option Nat) (mcti : Nat) (ns : Bool),
      ∃ c, (createRecord cfg st inp trackID parentID pn isFrom pidx mcti
          ns).fCurrentParticle = some c ∧
        c.keepFullTrajectory = keepFullTrajectorySpec cfg.fstoreTrajectories
          (alFindD st.fMCTIndexToGeneratorMap mcti ("", false)).2
          cfg.fkeepOnlyPrimaryFullTraj isFrom := by
  intro cfg st inp trackID parentID pn isFrom pidx mcti ns
  obtain ⟨c, hc, _, _, _, _, _, hk, _, _⟩ :=
    createRecord_spec cfg st inp trackID parentID pn isFrom pidx mcti ns
  refine ⟨c, hc, ?_⟩
  rw [hk, keepChain_eq_spec]

/-- Claim C7: a track admitted with primary-particle provenance gets mother id
0, and its process label and recorded from-primary-process flag are exactly
the three-case normalisation of the spec applied to the MCTruth process
label. -/
theorem C7_primary_label_normalisation :
    ∀ (cfg : Config) (st : State) (inp : TrackInput) (trackID parentID : Int)
      (ppi : PrimaryInfo),
      ∃ c, (primaryAdmit cfg st inp trackID parentID
          (some ppi)).fCurrentParticle = some c ∧
        c.particle.mother = 0 ∧
        c.particle.process = (normalizePrimarySpec ppi.process).1 ∧
        alFind? (primaryAdmit cfg st inp trackID parentID
            (some ppi)).fMCTPrimProcessKeepMap trackID
          = some (normalizePrimarySpec ppi.process).2 := by
  intro cfg st inp trackID parentID ppi
  simp only [primaryAdmit, normalizePrimaryProcess_eq_spec]
  obtain ⟨c, hc, _, hmom, hproc, _, _, _, _, _⟩ :=
    createRecord_spec cfg st inp trackID 0
      (normalizePrimarySpec ppi.process).1 (normalizePrimarySpec ppi.process).2
      (some ppi.mcParticleIndex) ppi.mctIndex false
  have hmap := (createRecord_maps cfg st inp trackID 0
    (normalizePrimarySpec ppi.process).1 (normalizePrimarySpec ppi.process).2
    (some ppi.mcParticleIndex) ppi.mctIndex false).2.1
  exact ⟨c, hc, hmom, hproc, hmap⟩

/-- Claim C8: at track end with an active particle and a final step whose
post-step process is undefined, the particle list is left exactly as it was —
the record's entry is gone entirely, not present as a nulled entry — the
active slot is cleared with no end process or end sample recorded anywhere,
and a nulled (reduced) copy is archived into the dropped collection exactly in
the covered cases: when the collection exists and the full trajectory was not
kept it is archived, when the collection does not exist nothing is retained,
and when the full trajectory was kept (and the record was not already flagged
for the dropped collection) the collection is unchanged. -/
theorem C8_degenerate_final_step_cleanup :
    ∀ (cfg : Config) (st : State) (c : CurrentInfo) (endInp : EndInput)
      (stp : StepInput),
      st.fCurrentParticle = some c →
      endInp.lastStep = some stp →
      stp.postProcess = none →
      (postUserTrackingAction cfg st (some endInp)).fParticleList
          = st.fParticleList ∧
      (postUserTrackingAction cfg st (some endInp)).fCurrentParticle = none ∧
      (∀ dl, st.fdroppedParticleList = some dl →
        c.keepFullTrajectory = false →
        (postUserTrackingAction cfg st (some endInp)).fdroppedParticleList
          = some (alInsert dl c.particle.trackId
              { mother := c.particle.mother, particle := none })) ∧
      (st.fdroppedParticleList = none →
        (postUserTrackingAction cfg st (some endInp)).fdroppedParticleList
          = none) ∧
      (c.keepFullTrajectory = true → c.inDroppedAdd = false →
        (postUserTrackingAction cfg st (some endInp)).fdroppedParticleList
          = st.fdroppedParticleList) := by
  intro cfg st c endInp stp hc hstep hpd
  obtain ⟨w, ls⟩ := endInp
  have hls : ls = some stp := hstep
  subst hls
  have hpd' : (stepTimeCorrection stp).postProcess = none := by
    rw [stepTimeCorrection_postProcess]
    exact hpd
  have heq : postUserTrackingAction cfg st (some { weight := w, lastStep := some stp })
      = postDegenerate st
          { c with particle := { c.particle with weight := w } } := by
    unfold postUserTrackingAction
    rw [hc]
    simp only [Option.map_some', hpd']
  rw [heq]
  refine ⟨(postDegenerate_fields ..).1, (postDegenerate_fields ..).2.1, ?_, ?_, ?_⟩
  · intro dl h1 h2
    exact postDegenerate_dropped_archive h1 h2
  · intro h1
    exact postDegenerate_dropped_none h1
  · intro h2 h3
    exact postDegenerate_dropped_keepFull h2 h3

/-- Claim C8, witness: the degenerate end of `demoCurrent` on the fresh
dropped-retention state — the particle list stays empty, the active slot is
cleared, and the dropped collection gains the nulled entry for track 7. -/
theorem C8_witness :
    (postUserTrackingAction demoConfigDrop demoStateDegen
        (some demoDegenEnd)).fParticleList = demoStateDegen.fParticleList ∧
    (postUserTrackingAction demoConfigDrop demoStateDegen
        (some demoDegenEnd)).fCurrentParticle = none ∧
    (postUserTrackingAction demoConfigDrop demoStateDegen
        (some demoDegenEnd)).fdroppedParticleList
      = some (alInsert [] demoCurrent.particle.trackId
          { mother := demoCurrent.particle.mother, particle := none }) :=
  ⟨(C8_degenerate_final_step_cleanup demoConfigDrop demoStateDegen demoCurrent
      demoDegenEnd demoDegenStep rfl rfl rfl).1,
    (C8_degenerate_final_step_cleanup demoConfigDrop demoStateDegen demoCurrent
      demoDegenEnd demoDegenStep rfl rfl rfl).2.1,
    (C8_degenerate_final_step_cleanup demoConfigDrop demoStateDegen demoCurrent
      demoDegenEnd demoDegenStep rfl rfl rfl).2.2.1 [] rfl rfl⟩

/-- Claim C9: a non-primary track below the energy threshold with nonzero pdg
code leaves the retained particle list untouched over its whole lifecycle
(it never appears in the retained output), while a track at or above the
threshold that is not caught by the process-exclusion filter (and has zero
proper time and an inheritable parent) is admitted with its record flagged for
the retained list — the energy cut alone never drops it. -/
theorem C9_energy_cut_boundary :
    ∀ (cfg : Config) (st : State) (inp : TrackInput),
      inp.primary = none →
      ((inp.kineticEnergy < cfg.fenergyCut ∧ inp.pdgCode ≠ 0) →
        ∀ (steps : List StepInput) (weight : ℚ),
        ∃ st2, processTrack cfg st inp steps weight = Except.ok st2 ∧
          st2.fParticleList = st.fParticleList) ∧
      (∀ (trackID parentID : Int) (mcti : Nat),
        ¬ inp.kineticEnergy < cfg.fenergyCut →
        (filterMatch cfg inp.creatorProcess).isSome = false →
        inp.properTime = 0 →
        alFind? (filterStage cfg st inp.creatorProcess trackID
            parentID).fMCTIndexMap
          (resolvedParentOf cfg st inp trackID parentID) = some mcti →
        ∃ st1, nonPrimaryAdmit cfg st inp trackID parentID = Except.ok st1 ∧
          ∃ c, st1.fCurrentParticle = some c ∧ c.inMain = true) := by
  intro cfg st inp hprim
  constructor
  · intro hcut steps weight
    have hok : preUserTrackingAction cfg st inp = Except.ok
        (energyCutUpdate (filterStage cfg
            (admissionPrep st (inp.trackIdG4 + st.fTrackIDOffset))
            inp.creatorProcess (inp.trackIdG4 + st.fTrackIDOffset)
            (inp.parentIdG4 + st.fTrackIDOffset))
          (inp.trackIdG4 + st.fTrackIDOffset)
          (inp.parentIdG4 + st.fTrackIDOffset)) := by
      rw [preUserTrackingAction_nonprimary_eq hprim]
      exact nonPrimaryAdmit_energy_eq hcut
    have hframe := preUserTrackingAction_frame hok
    refine ⟨_, ?_, hframe.1⟩
    rw [processTrack_ok_eq steps weight hok,
      foldl_stepping_none steps _ (energyCutUpdate_fCurrentParticle ..),
      postUserTrackingAction_none (energyCutUpdate_fCurrentParticle ..)]
  · intro trackID parentID mcti hke hfilter hpt hfind
    have hcut : ¬(inp.kineticEnergy < cfg.fenergyCut ∧ inp.pdgCode ≠ 0) :=
      fun h => hke h.1
    rw [nonPrimaryAdmit_noCut_eq hcut, resolveAndInherit_some_eq hfind]
    refine ⟨_, rfl, ?_⟩
    obtain ⟨c, hc, -, -, -, -, -, -, hin, -⟩ :=
      createRecord_spec cfg _ inp trackID _ _ _ _ _ _
    exact ⟨c, hc, hin hpt hfilter⟩

/-- Claim C9, witness: the energy-dropped `demoSecondaryTrack` leaves the
retained list of `demoStateCut` unchanged, and the above-threshold
`demoEnergeticSecondary` is admitted with its record flagged for the retained
list. -/
theorem C9_witness :
    (∃ st2, processTrack demoConfigCut demoStateCut demoSecondaryTrack [] 1
        = Except.ok st2 ∧
      st2.fParticleList = demoStateCut.fParticleList) ∧
    (∃ st1, nonPrimaryAdmit demoConfigCut demoStateCut demoEnergeticSecondary 2 1
        = Except.ok st1 ∧
      ∃ c, st1.fCurrentParticle = some c ∧ c.inMain = true) :=
  ⟨(C9_energy_cut_boundary demoConfigCut demoStateCut demoSecondaryTrack
      rfl).1 (by decide) [] 1,
    (C9_energy_cut_boundary demoConfigCut demoStateCut demoEnergeticSecondary
      rfl).2 2 1 0 (by decide) (by decide) rfl (by decide)⟩

/-- Claim C10: with no dropped list built at construction, `YieldDroppedList`
throws (in the model: returns the exception with no result state, so the
retained list and the offset are untouched); with retention enabled it returns
the dropped list, leaves the retained list in place, and — exactly when the
retained list is non-empty — sets the track-id offset to one more than the
least upper bound (floored at 0, the scan's start value) of the ids seen over
both lists. -/
theorem C10_YieldDroppedList_contract :
    ∀ (st : State),
      (st.fdroppedParticleList = none →
        YieldDroppedList st = Except.error
          "ParticleListAction: dropped particle list not build by user request.") ∧
      (∀ dl, st.fdroppedParticleList = some dl →
        ∃ st', YieldDroppedList st = Except.ok (dl, st') ∧
          st'.fParticleList = st.fParticleList ∧
          st'.fdroppedParticleList = some [] ∧
          (st.fParticleList = [] →
            st'.fTrackIDOffset = st.fTrackIDOffset) ∧
          (st.fParticleList ≠ [] →
            ∃ M, st'.fTrackIDOffset = M + 1 ∧ 0 ≤ M ∧
              (∀ k ∈ st.fParticleList.map Prod.fst ++ dl.map Prod.fst, k ≤ M) ∧
              (∀ B, 0 ≤ B →
                (∀ k ∈ st.fParticleList.map Prod.fst ++ dl.map Prod.fst, k ≤ B) →
                M ≤ B))) := by
  intro st
  constructor
  · intro h
    simp only [YieldDroppedList, h]
  · intro dl h
    simp only [YieldDroppedList, h]
    refine ⟨_, rfl, ?_, rfl, ?_, ?_⟩
    · split <;> rfl
    · intro hnil
      rw [if_neg (by simp [hnil])]
    · intro hne
      rw [if_pos (by simpa [List.length_eq_zero] using hne)]
      refine ⟨highestOver (highestOver 0 st.fParticleList) dl, rfl, ?_, ?_, ?_⟩
        <;> rw [highestOver_eq_keysFold, highestOver_eq_keysFold, ← keysFold_append]
      · exact keysFold_init_le 0 _
      · intro k hk
        exact keysFold_mem_le _ 0 k hk
      · intro B hB hbound
        exact keysFold_le_bound _ 0 B hB hbound

/-- Claim C10, witness: `YieldDroppedList` throws on `demoStateCut` (no
dropped list was built) and succeeds on the dropped-retention state
`demoStateDegen`, whose retained list is empty so the offset is untouched. -/
theorem C10_witness :
    (YieldDroppedList demoStateCut = Except.error
      "ParticleListAction: dropped particle list not build by user request.") ∧
    (∃ st', YieldDroppedList demoStateDegen
        = Except.ok (([] : List (Int × PLEntry)), st') ∧
      st'.fParticleList = demoStateDegen.fParticleList ∧
      st'.fdroppedParticleList = some [] ∧
      (demoStateDegen.fParticleList = [] →
        st'.fTrackIDOffset = demoStateDegen.fTrackIDOffset) ∧
      (demoStateDegen.fParticleList ≠ [] →
        ∃ M, st'.fTrackIDOffset = M + 1 ∧ 0 ≤ M ∧
          (∀ k ∈ demoStateDegen.fParticleList.map Prod.fst ++
              ([] : List (Int × PLEntry)).map Prod.fst, k ≤ M) ∧
          (∀ B, 0 ≤ B →
            (∀ k ∈ demoStateDegen.fParticleList.map Prod.fst ++
                ([] : List (Int × PLEntry)).map Prod.fst, k ≤ B) →
            M ≤ B))) :=
  ⟨(C10_YieldDroppedList_contract demoStateCut).1 rfl,
    (C10_YieldDroppedList_contract demoStateDegen).2 [] rfl⟩

/-- Claim C5: a track admitted into the retained list (active record with an
empty trajectory, flagged for the main list — which also entails zero proper
time at creation) that ends normally after its steps (last step with a
process-defined post-step point) yields a retained particle with at least one
trajectory sample; when its full trajectory was not kept, the retained
trajectory is exactly the unconditional first-step "Start" sample plus the
single end sample appended at track end. -/
theorem C5_trajectory_count_invariant :
    ∀ (cfg : Config) (st st1 : State) (inp : TrackInput) (c : CurrentInfo)
      (steps : List StepInput) (weight : ℚ) (lastStp : StepInput)
      (process : String),
      preUserTrackingAction cfg st inp = Except.ok st1 →
      st1.fCurrentParticle = some c →
      c.particle.trajectory = [] →
      c.inMain = true →
      steps.getLast? = some lastStp →
      lastStp.postProcess = some process →
      ∃ st2 p, processTrack cfg st inp steps weight = Except.ok st2 ∧
        alFind? st2.fParticleList c.particle.trackId
          = some { mother := p.mother, particle := some p } ∧
        p.trackId = c.particle.trackId ∧
        1 ≤ p.trajectory.length ∧
        (c.keepFullTrajectory = false →
          p.trajectory.length = 2 ∧
          p.trajectory.map TrajPoint.process = ["Start", process]) := by
  intro cfg st st1 inp c steps weight lastStp process hpre hc he hin hlast hpd
  have hex : ∃ s ∈ steps, s.postProcess ≠ none :=
    ⟨lastStp, getLast?_mem_of_eq steps lastStp hlast, by
      rw [hpd]
      exact Option.some_ne_none process⟩
  have hfold : ∃ c', steps.foldl (userSteppingAction cfg) st1
      = { st1 with fCurrentParticle := some c' } ∧ CurrentExtends c c' ∧
      1 ≤ c'.particle.trajectory.length ∧
      (c.keepFullTrajectory = false →
        c'.particle.trajectory.map TrajPoint.process = ["Start"]) := by
    by_cases hk : c.keepFullTrajectory = true
    · obtain ⟨c', heqF, hextF, hlenF⟩ := foldl_stepping_pos steps st1 c hc hex
      refine ⟨c', heqF, hextF, hlenF, ?_⟩
      intro hkf
      rw [hk] at hkf
      simp at hkf
    · have hkf : c.keepFullTrajectory = false := Bool.eq_false_iff.mpr hk
      obtain ⟨c', heqF, hextF, hproc⟩ :=
        foldl_stepping_keepFalse_proc steps st1 c hc hkf he
      have hmap := hproc hex
      have hlen1 : c'.particle.trajectory.length = 1 := by
        have hml := congrArg List.length hmap
        rw [List.length_map] at hml
        simpa using hml
      exact ⟨c', heqF, hextF, by omega, fun _ => hmap⟩
  obtain ⟨c', heqF, hextF, hlenF, hmapF⟩ := hfold
  obtain ⟨c3, heqP, hkP, hinP, -, -, hidP, -, -, hlenP, hsparP, hmapP⟩ :=
    @postUserTrackingAction_some_normal cfg
      { st1 with fCurrentParticle := some c' } c'
      { weight := weight, lastStep := steps.getLast? } lastStp process
      rfl hlast hpd
  have hin3 : c3.inMain = true := by
    rw [hinP, hextF.2.2.1, hin]
  have hid3 : c3.particle.trackId = c.particle.trackId := by
    rw [hidP, hextF.2.2.2.2.1]
  have hk3 : c'.keepFullTrajectory = c.keepFullTrajectory := hextF.1
  have hpt : processTrack cfg st inp steps weight = Except.ok
      (commitCurrent (recordPrimaryTruth
        { st1 with fCurrentParticle := some c3 } c3) c3) := by
    rw [processTrack_ok_eq steps weight hpre, heqF, heqP]
  refine ⟨_, c3.particle, hpt, ?_, hid3, ?_, ?_⟩
  · rw [commitCurrent_fParticleList, recordPrimaryTruth_fParticleList, hin3,
      if_pos rfl, ← hid3]
    exact alFind?_alInsert_self ..
  · rcases Bool.dichotomy c.keepFullTrajectory with hkc | hkc
    · rw [hlenP (hk3.trans hkc)]
      omega
    · rcases hsparP (hk3.trans hkc) with hS | hS
      · rw [hS]
        refine List.length_pos.mpr (SparsifyTrajectory_ne_nil _ _ ?_)
        intro hnil
        rw [hnil] at hlenF
        simp at hlenF
      · rw [hS]
        exact hlenF
  · intro hkc
    have h2 := hlenP (hk3.trans hkc)
    have hmap1 := hmapF hkc
    have hlen1 : c'.particle.trajectory.length = 1 := by
      have hml := congrArg List.length hmap1
      rw [List.length_map] at hml
      simpa using hml
    constructor
    · rw [h2, hlen1]
    · rw [hmapP (hk3.trans hkc), hmap1]
      rfl

/-- Claim C5, witness: the primary demo track, admitted on a fresh event and
stepped once, is retained with a non-empty trajectory (its record keeps the
full trajectory, so the exactly-two clause is not triggered). -/
theorem C5_witness :
    ∃ st2 p, processTrack demoConfig
        (beginOfEventAction demoConfig (initialState demoConfig) ["gen"])
        demoPrimaryTrack [demoStep] 1 = Except.ok st2 ∧
      alFind? st2.fParticleList demoCurrentPre.particle.trackId
        = some { mother := p.mother, particle := some p } ∧
      p.trackId = demoCurrentPre.particle.trackId ∧
      1 ≤ p.trajectory.length ∧
      (demoCurrentPre.keepFullTrajectory = false →
        p.trajectory.length = 2 ∧
        p.trajectory.map TrajPoint.process = ["Start", "Transportation"]) :=
  C5_trajectory_count_invariant demoConfig
    (beginOfEventAction demoConfig (initialState demoConfig) ["gen"])
    demoStatePre demoPrimaryTrack demoCurrentPre [demoStep] 1 demoStep
    "Transportation" rfl rfl rfl rfl rfl rfl

end Larg4
